import Mathlib

/-!
Verification development for the libby-wrapped metrics core (`data.py`).

The Python source is shallowly embedded: pandas DataFrames become a `DF`
structure (a column-name list plus rows of `Cell`s, where a cell is missing
(`na`), a raw string, or a parsed timestamp), timestamps become `Int` seconds
since 2000-01-01 00:00 (naive), and Python `float` arithmetic is modelled
exactly over `ℚ` (with Python's banker's rounding for `round`).  The
UTC→America/Indiana/Indianapolis conversion is modelled as a fixed UTC-5
offset (EST); this is exact for dates outside daylight-saving time, and all
concrete inputs used below stay in EST months.  Python-level exceptions that
can escape a function are modelled with `Except PyErr`.
-/

namespace LibbyWrapped

/-! ## Character classes (Python `re` ASCII view of `\w` and `\s`) -/
/-- Models the regex class `\w` (word character): alphanumeric or underscore. -/
def isWordChar (c : Char) : Bool := c.isAlphanum || c = '_'

/-- Models the regex class `\s` (whitespace). -/
def isSpaceChar (c : Char) : Bool :=
  c = ' ' || c = '\t' || c = '\n' || c = '\r' || c = '\x0b' || c = '\x0c'

/-- Models Python `str.lower` on a character (ASCII range). -/
def lowerChar (c : Char) : Char :=
  if 65 ≤ c.toNat ∧ c.toNat ≤ 90 then Char.ofNat (c.toNat + 32) else c

/-- Models Python `str.upper` on a character (ASCII range). -/
def upperChar (c : Char) : Char :=
  if 97 ≤ c.toNat ∧ c.toNat ≤ 122 then Char.ofNat (c.toNat - 32) else c

/-! ## Python string helpers on `List Char` -/
/-- Drop a trailing run of whitespace characters. -/
def dropTrailingWs : List Char → List Char
  | [] => []
  | c :: r =>
    match dropTrailingWs r with
    | [] => if isSpaceChar c then [] else [c]
    | r2 => c :: r2

/-- Models Python `str.strip()`. -/
def pyStrip (l : List Char) : List Char := dropTrailingWs (l.dropWhile isSpaceChar)

/-- Does `l` start with `p`? -/
def startsWithList : List Char → List Char → Bool
  | _, [] => true
  | [], _ :: _ => false
  | c :: r, p :: ps => c == p && startsWithList r ps

/-- Does `pat` occur as a contiguous substring of `l`?  (Models the regex
`a|b` substring searches such as `str.contains("borrow|checkout")`.) -/
def hasSubstrList : List Char → List Char → Bool
  | [], pat => startsWithList [] pat
  | c :: r, pat => startsWithList (c :: r) pat || hasSubstrList r pat

def hasSubstr (s pat : String) : Bool := hasSubstrList s.data pat.data

def pyLowerStr (s : String) : String := String.mk (s.data.map lowerChar)

def pyStripStr (s : String) : String := String.mk (pyStrip s.data)

/-! ## Title canonicalization (`_canon_title`) -/
/-- Scan for the first occurrence of `cl`; the regex atom `.` does not match a
newline, so the search aborts at a `'\n'`.  Returns the remainder after the
closing character.  (Used for the non-greedy `\[.*?\]` / `\(.*?\)` pieces.) -/
def findClose (cl : Char) : List Char → Option (List Char)
  | [] => none
  | c :: r => if c = cl then some r else if c = '\n' then none else findClose cl r

/-- Fuel-based worker for `stripBrackets` (the fuel only serves to make the
recursion structural; `stripBrackets` supplies enough fuel, since every step
consumes at least one character). -/
def stripBracketsAux : ℕ → List Char → List Char
  | 0, l => l
  | _ + 1, [] => []
  | n + 1, c :: r =>
    if c = '[' then
      match findClose ']' r with
      | some r2 => stripBracketsAux n r2
      | none => c :: stripBracketsAux n r
    else if c = '(' then
      match findClose ')' r with
      | some r2 => stripBracketsAux n r2
      | none => c :: stripBracketsAux n r
    else c :: stripBracketsAux n r

/-- Models `re.sub(r"(\[.*?\]|\(.*?\))", "", s)`: remove non-greedy bracketed
segments, scanning left to right. -/
def stripBrackets (l : List Char) : List Char := stripBracketsAux l.length l

/-- Models `s.replace("—", "-").replace("–", "-")`. -/
def normDashes (l : List Char) : List Char :=
  l.map fun c => if c = '—' ∨ c = '–' then '-' else c

/-- The literal word of the `\breread\b` pattern. -/
def rereadTok : List Char := ['r', 'e', 'r', 'e', 'a', 'd']

/-- No newline occurs in `l`. -/
def noNl (l : List Char) : Bool := !(l.contains '\n')

/-- A word boundary `\b` holds after the match (end of string, or a non-word
character follows). -/
def boundaryAfter : List Char → Bool
  | [] => true
  | c :: _ => !(isWordChar c)

/-- Can `.*$` consume the suffix `l`?  `.` does not match `'\n'` and `$`
matches only at the end of the string or just before a final newline. -/
def suffixOk (l : List Char) : Bool :=
  noNl l || (noNl l.dropLast && l.getLast? == some '\n')

/-- Does `\breread\b.*$` match starting at the head of `l`, given whether the
previous character was a word character? -/
def rereadCond (prevW : Bool) (l : List Char) : Bool :=
  !prevW && l.take 6 == rereadTok && boundaryAfter (l.drop 6) && suffixOk (l.drop 6)

/-- What remains of a matched suffix after the greedy `.*$` (keeps a final
newline, because `$` then matches just before it). -/
def tailKeep (l : List Char) : List Char := if noNl l then [] else ['\n']

/-- Models `re.sub(r"\breread\b.*$", "", s)`: cut from the leftmost match. -/
def rereadCutAux (prevW : Bool) : List Char → List Char
  | [] => []
  | c :: r =>
    if rereadCond prevW (c :: r) then tailKeep ((c :: r).drop 6)
    else c :: rereadCutAux (isWordChar c) r

/-- Is there any position at which `\breread\b.*$` matches? -/
def hasMatch (prevW : Bool) : List Char → Bool
  | [] => false
  | c :: r => rereadCond prevW (c :: r) || hasMatch (isWordChar c) r

/-- Models `re.sub(r"[^\w\s]", " ", s)`. -/
def punctSub (l : List Char) : List Char :=
  l.map fun c => if isWordChar c || isSpaceChar c then c else ' '

/-- Models `re.sub(r"\s+", " ", s)` (collapse every whitespace run to one
space). -/
def collapseWsAux (prevSp : Bool) : List Char → List Char
  | [] => []
  | c :: r =>
    if isSpaceChar c then
      if prevSp then collapseWsAux true r else ' ' :: collapseWsAux true r
    else c :: collapseWsAux false r

def collapseWs (l : List Char) : List Char := collapseWsAux false l

/-- The `_canon_title` pipeline of `data.py` on a character list: lowercase and
strip, remove bracketed segments, normalize em/en dashes, cut a
word-boundary "reread" and what follows, turn remaining punctuation into
spaces, collapse whitespace, strip. -/
def canonList (l : List Char) : List Char :=
  pyStrip (collapseWs (punctSub
    (rereadCutAux false (normDashes (stripBrackets (pyStrip (l.map lowerChar)))))))

/-- `_canon_title` (non-string inputs are handled at the `Cell` level). -/
def canonTitle (s : String) : String := String.mk (canonList s.data)

/-- Models `_display_title`: remove a whitespace run followed by a bracketed
segment (`re.sub(r"\s*\(.*?\)", "", s)` and the `[...]` analogue).  Fuel keeps
the recursion structural. -/
def dropBrkAux (opc clc : Char) : ℕ → List Char → List Char
  | 0, l => l
  | _ + 1, [] => []
  | n + 1, c :: r =>
    if c = opc then
      match findClose clc r with
      | some r2 => dropBrkAux opc clc n r2
      | none => c :: dropBrkAux opc clc n r
    else if isSpaceChar c then
      match (c :: r).dropWhile isSpaceChar with
      | o :: r3 =>
        if o = opc then
          match findClose clc r3 with
          | some r4 => dropBrkAux opc clc n r4
          | none => c :: dropBrkAux opc clc n r
        else c :: dropBrkAux opc clc n r
      | [] => c :: dropBrkAux opc clc n r
    else c :: dropBrkAux opc clc n r

def dropBrk (opc clc : Char) (l : List Char) : List Char := dropBrkAux opc clc l.length l

/-- Models `re.sub(r"\s{2,}", " ", s)`: a run of two or more whitespace
characters becomes a single space; a lone whitespace character is kept. -/
def collapseMultiAux : ℕ → List Char → List Char
  | 0, l => l
  | _ + 1, [] => []
  | n + 1, c :: r =>
    if isSpaceChar c then
      match r with
      | c2 :: _ =>
        if isSpaceChar c2 then ' ' :: collapseMultiAux n (r.dropWhile isSpaceChar)
        else c :: collapseMultiAux n r
      | [] => [c]
    else c :: collapseMultiAux n r

/-- Models `_display_title`: strip `(...)` and `[...]` suffixes with leading
whitespace, collapse multiple spaces, strip — case is preserved. -/
def displayTitle (s : String) : String :=
  String.mk (pyStrip (collapseMultiAux (s.data.length + 1)
    (dropBrk '[' ']' (dropBrk '(' ')' s.data))))

/-! ## Calendar and timestamps

Timestamps are `Int` seconds since 2000-01-01 00:00 (proleptic Gregorian,
naive).  This mirrors pandas `Timestamp` values for the dates appearing in the
data (all after 2000). -/
def isLeap (y : ℕ) : Bool := (y % 4 = 0 && y % 100 ≠ 0) || y % 400 = 0

def daysInYear (y : ℕ) : ℕ := if isLeap y then 366 else 365

def daysInMonth (y m : ℕ) : ℕ :=
  if m = 2 then (if isLeap y then 29 else 28)
  else if m = 4 ∨ m = 6 ∨ m = 9 ∨ m = 11 then 30
  else 31

/-- Days from 2000-01-01 to the start of year `2000 + k`. -/
def daysFromEpochAux : ℕ → ℕ
  | 0 => 0
  | k + 1 => daysFromEpochAux k + daysInYear (2000 + k)

/-- Days from 2000-01-01 to the start of year `y` (0 for years ≤ 2000). -/
def daysFrom2000 (y : ℕ) : ℕ := daysFromEpochAux (y - 2000)

/-- Days from the start of the year to the start of month `m`. -/
def daysBeforeMonth (y m : ℕ) : ℕ :=
  (List.range (m - 1)).foldl (fun a i => a + daysInMonth y (i + 1)) 0

/-- Build a timestamp (seconds since 2000-01-01 00:00). -/
def mkTs (y m d hh mi ss : ℕ) : Int :=
  (((daysFrom2000 y + daysBeforeMonth y m + (d - 1)) * 86400 + hh * 3600 + mi * 60 + ss : ℕ) : Int)

/-- Find the year containing day `d` (counted from 2000-01-01); fuel-based. -/
def yearFromAux : ℕ → ℕ → ℕ → ℕ
  | 0, y, _ => y
  | fuel + 1, y, d => if d < daysInYear y then y else yearFromAux fuel (y + 1) (d - daysInYear y)

/-- The day index (from 2000-01-01) of a timestamp; pre-2000 instants clamp to
day 0 (they do not occur in the data). -/
def tsDay (t : Int) : ℕ := ((t / 86400 : Int)).toNat

/-- Models pandas `.dt.year`. -/
def tsYear (t : Int) : Int := (yearFromAux (tsDay t + 1) 2000 (tsDay t) : Int)

/-- Find the month containing day-of-year `d`; fuel counts months. -/
def monthFromAux (y : ℕ) : ℕ → ℕ → ℕ → ℕ
  | 0, m, _ => m
  | fuel + 1, m, d =>
    if m ≥ 12 then 12
    else if d < daysInMonth y m then m else monthFromAux y fuel (m + 1) (d - daysInMonth y m)

/-- Models pandas `.dt.month`. -/
def tsMonth (t : Int) : ℕ :=
  let d := tsDay t
  let y := yearFromAux (d + 1) 2000 d
  monthFromAux y 12 1 (d - daysFrom2000 y)

def monthNames : List String :=
  ["January", "February", "March", "April", "May", "June", "July", "August",
   "September", "October", "November", "December"]

/-- Models `.dt.strftime("%B")`. -/
def monthName (m : ℕ) : String := monthNames.getD (m - 1) ""

/-- Models `tz_convert(LOCAL_TZ).tz_localize(None)` for
`America/Indiana/Indianapolis` as a fixed UTC-5 offset.  This is exact for
instants outside daylight-saving time (in particular around year boundaries,
which is what year-bucketing depends on); all concrete instants used in this
file fall in EST months. -/
def tsLocal (t : Int) : Int := t - 18000

/-! ## Kernel-reducible rational arithmetic

`Rat.add`/`Rat.mul`/`Rat.div` do not reduce inside the kernel, which would
make concrete evaluation (`decide`) impossible; these wrappers compute the
same values through `Rat.divInt`, which does reduce.  Each wrapper is proved
equal to the standard operation, so abstract reasoning can use ordinary
algebra. -/
def qAdd (a b : ℚ) : ℚ := Rat.divInt (a.num * (b.den : Int) + b.num * (a.den : Int)) ((a.den : Int) * (b.den : Int))

def qSub (a b : ℚ) : ℚ := Rat.divInt (a.num * (b.den : Int) - b.num * (a.den : Int)) ((a.den : Int) * (b.den : Int))

def qMul (a b : ℚ) : ℚ := Rat.divInt (a.num * b.num) ((a.den : Int) * (b.den : Int))

def qDiv (a b : ℚ) : ℚ := Rat.divInt (a.num * (b.den : Int)) ((a.den : Int) * b.num)

def qLe (a b : ℚ) : Bool := a.num * (b.den : Int) ≤ b.num * (a.den : Int)

def qLt (a b : ℚ) : Bool := a.num * (b.den : Int) < b.num * (a.den : Int)

def qSum (l : List ℚ) : ℚ := l.foldl qAdd 0

/-- Python `round` on an exact rational: round half to even. -/
def pyRound (q : ℚ) : Int :=
  let n := q.num
  let d : Int := (q.den : Int)
  let f := Int.fdiv n d
  let rem2 := 2 * (n - f * d)
  if rem2 < d then f else if d < rem2 then f + 1 else if f % 2 = 0 then f else f + 1

/-- Python `round(x, 2)` on an exact rational. -/
def round2 (q : ℚ) : ℚ := Rat.divInt (pyRound (qMul q 100)) 100

/-- Python `round(x, 1)` on an exact rational. -/
def round1 (q : ℚ) : ℚ := Rat.divInt (pyRound (qMul q 10)) 10

/-! ## Number and timestamp parsing -/
def digitsToNat (l : List Char) : ℕ := l.foldl (fun a c => a * 10 + (c.toNat - 48)) 0

/-- Parse a nonempty all-digit string. -/
def parseNatDigits (l : List Char) : Option ℕ :=
  if l ≠ [] ∧ l.all Char.isDigit then some (digitsToNat l) else none

/-- Split a character list on one separator character (keeping empty parts). -/
def splitOnChar (sep : Char) : List Char → List (List Char) :=
  go []
where
  go (acc : List Char) : List Char → List (List Char)
    | [] => [acc.reverse]
    | c :: r => if c = sep then acc.reverse :: go [] r else go (c :: acc) r

/-- Parse an unsigned decimal literal built from digits and at most one dot,
as `float`/`pd.to_numeric` accept (`"12"`, `"12.5"`, `".5"`, `"12."`). -/
def parseUnsignedDec (l : List Char) : Option ℚ :=
  match splitOnChar '.' l with
  | [ip] => (parseNatDigits ip).map (fun n => (n : ℚ))
  | [ip, fp] =>
    if (ip ≠ [] ∨ fp ≠ []) ∧ ip.all Char.isDigit ∧ fp.all Char.isDigit then
      some (Rat.divInt (digitsToNat ip * 10 ^ fp.length + digitsToNat fp : ℕ) ((10 ^ fp.length : ℕ) : Int))
    else none
  | _ => none

/-- Models `pd.to_numeric(str, errors="coerce")` for plain decimal literals
with an optional sign (scientific notation does not occur in the data). -/
def parseNumStr (s : String) : Option ℚ :=
  match pyStrip s.data with
  | '-' :: r => (parseUnsignedDec r).map (fun q => Rat.divInt (-q.num) (q.den : Int))
  | '+' :: r => parseUnsignedDec r
  | l => parseUnsignedDec l

def hasAlpha (s : String) : Bool := s.data.any Char.isAlpha

/-- Parse `"YYYY-MM-DD"` (with basic range validation, as pandas does). -/
def parseDatePart (s : List Char) : Option (ℕ × ℕ × ℕ) :=
  match splitOnChar '-' s with
  | [ys, ms, ds] => do
    let y ← parseNatDigits ys
    let m ← parseNatDigits ms
    let d ← parseNatDigits ds
    if 1 ≤ m ∧ m ≤ 12 ∧ 1 ≤ d ∧ d ≤ daysInMonth y m ∧ 2000 ≤ y then some (y, m, d) else none
  | _ => none

/-- Parse `"HH:MM"` or `"HH:MM:SS"`. -/
def parseTimePart (s : List Char) : Option (ℕ × ℕ × ℕ) :=
  match splitOnChar ':' s with
  | [hs, ms] => do
    let h ← parseNatDigits hs
    let mi ← parseNatDigits ms
    if h < 24 ∧ mi < 60 then some (h, mi, 0) else none
  | [hs, ms, ss] => do
    let h ← parseNatDigits hs
    let mi ← parseNatDigits ms
    let sec ← parseNatDigits ss
    if h < 24 ∧ mi < 60 ∧ sec < 60 then some (h, mi, sec) else none
  | _ => none

/-- Drop a trailing `"Z"` or `"+00:00"` UTC marker. -/
def dropUtcSuffix (l : List Char) : List Char :=
  if l.reverse.take 1 = ['Z'] then l.dropLast
  else if l.reverse.take 6 = "00:00+".data then l.take (l.length - 6)
  else l

/-- Parse ISO-like timestamps `"YYYY-MM-DD[ HH:MM[:SS]]"` (also with a `T`
separator and an optional UTC suffix), as the generic `pd.to_datetime`
accepts. -/
def parseIso (s : String) : Option Int :=
  let l := (dropUtcSuffix (pyStrip s.data)).map (fun c => if c = 'T' then ' ' else c)
  match splitOnChar ' ' l with
  | [d] => (parseDatePart d).map (fun p => mkTs p.1 p.2.1 p.2.2 0 0 0)
  | [d, t] => do
    let p ← parseDatePart d
    let q ← parseTimePart t
    some (mkTs p.1 p.2.1 p.2.2 q.1 q.2.1 q.2.2)
  | _ => none

/-- Parse the verbose export format `"%B %d, %Y %I:%M %p"`
(e.g. `"April 23, 2021 8:21 PM"`). -/
def parseVerbose (s : String) : Option Int :=
  match splitOnChar ' ' (pyStrip s.data) with
  | [mon, dayComma, yr, hm, ap] => do
    let mIdx ← monthNames.findIdx? (fun n => n.data = mon)
    let d ← match dayComma.reverse with
      | ',' :: rd => parseNatDigits rd.reverse
      | _ => none
    let y ← parseNatDigits yr
    let (h12, mi, _) ← parseTimePart hm
    let hh ←
      if h12 = 0 ∨ h12 > 12 then none
      else if ap = "AM".data then some (if h12 = 12 then 0 else h12)
      else if ap = "PM".data then some (if h12 = 12 then 12 else h12 + 12)
      else none
    if 1 ≤ d ∧ d ≤ daysInMonth y (mIdx + 1) ∧ 2000 ≤ y then
      some (mkTs y (mIdx + 1) d hh mi 0)
    else none
  | _ => none

/-- Models generic `pd.to_datetime(value, errors="coerce")` on a string (the
dateutil parser accepts both the verbose alphabetic format and ISO forms). -/
def parseGeneric (s : String) : Option Int :=
  if hasAlpha s then (parseVerbose s).orElse (fun _ => parseIso s) else parseIso s

/-! ## The table model

A pandas DataFrame loaded from CSV becomes a `DF`: a list of column names
plus rows of cells.  A cell is missing (`NaN`), a raw string, or a parsed
timestamp (`pd.Timestamp` values written into a column by
`fix_finished_times` / `pd.to_datetime`). -/
inductive Cell where
  | na : Cell
  | str : String → Cell
  | ts : Int → Cell
deriving DecidableEq

structure DF where
  cols : List String
  rows : List (List Cell)
deriving DecidableEq

def emptyDF : DF := ⟨[], []⟩

/-- Models `name in df.columns`. -/
def DF.hasCol (df : DF) (c : String) : Bool := df.cols.contains c

/-- The value of column `c` in row `r` (missing column or short row reads as
`NaN`; the embedding only reads absent columns where the source guards for
presence or where the missing-column behaviour is modelled explicitly). -/
def DF.cell (df : DF) (r : List Cell) (c : String) : Cell :=
  match df.cols.findIdx? (fun x => x = c) with
  | some i => r.getD i Cell.na
  | none => Cell.na

/-- Models `df.empty` (no rows or no columns). -/
def DF.isEmptyDF (df : DF) : Bool := df.rows.isEmpty || df.cols.isEmpty

/-- Set column `c` of row `r` to `v`. -/
def setCell (cols : List String) (r : List Cell) (c : String) (v : Cell) : List Cell :=
  match cols.findIdx? (fun x => x = c) with
  | some i => r.set i v
  | none => r

/-- The first of `names` that is a column of `df`
(models `next((c for c in [...] if c in df.columns), None)`). -/
def firstColOf (df : DF) (names : List String) : Option String :=
  names.find? (fun c => df.hasCol c)

/-- Models Python `str(x)` / `.astype(str)` on a cell (`str(nan) = "nan"`;
timestamps print ISO-style, which `_parse_created_series` re-parses to the
same instant — the embedding keeps the instant). -/
def cellToStr : Cell → String
  | Cell.na => "nan"
  | Cell.str s => s
  | Cell.ts _ => ""

/-- Models `pd.to_datetime(cell, errors="coerce")`. -/
def cellTs : Cell → Option Int
  | Cell.na => none
  | Cell.str s => parseGeneric s
  | Cell.ts t => some t

/-- Models `pd.to_numeric(cell, errors="coerce")`. -/
def parseNum : Cell → Option ℚ
  | Cell.na => none
  | Cell.str s => parseNumStr s
  | Cell.ts _ => none

/-- Models `_parse_created_series` on one cell: strings with an alphabetic
character go through the `"%B %d, %Y %I:%M %p"` format, others through the
generic parser, with a generic-parse fallback; a timestamp already present
round-trips through `astype(str)` unchanged. -/
def parseCreatedCell : Cell → Option Int
  | Cell.na => none
  | Cell.str s => if hasAlpha s then (parseVerbose s).orElse (fun _ => parseIso s) else parseIso s
  | Cell.ts t => some t

/-- `_canon_title` applied to a cell (non-strings canonicalize to `""`). -/
def canonCell : Cell → String
  | Cell.str s => canonTitle s
  | _ => ""

/-- Column normalization of `_normalize_cols`:
`c.strip().lower().replace(" ", "_")` on every column name. -/
def normColName (s : String) : String :=
  String.mk (((pyStrip s.data).map lowerChar).map (fun c => if c = ' ' then '_' else c))

def normalizeCols (df : DF) : DF := ⟨df.cols.map normColName, df.rows⟩

/-! ## `estimate_percentile` -/
/-- The bracket table of `estimate_percentile`
(finished-book count, percentile). -/
def interpTable : List (Int × Int) :=
  [(0, 0), (1, 46), (2, 51), (3, 56), (4, 62), (5, 67), (6, 72), (7, 76),
   (8, 77), (9, 78), (10, 79), (15, 85), (20, 88), (30, 92), (40, 94), (50, 99)]

/-- The bracket loop of `estimate_percentile`: find the first upper entry at
or above `n` and interpolate linearly from the previous entry (Python's
`round`, i.e. half-to-even on the exact value — the float expression in the
source rounds identically for every reachable input, see `C5` below). -/
def epLoop (n : Int) : List (Int × Int) → (Int × Int) → Int
  | [], _ => 99
  | (hb, hp) :: rest, (lb, lp) =>
    if n ≤ hb then
      pyRound (qAdd (lp : ℚ) (qMul (qDiv ((n - lb : Int) : ℚ) ((max 1 (hb - lb) : Int) : ℚ)) ((hp - lp : Int) : ℚ)))
    else epLoop n rest (hb, hp)

def estimatePercentile (totalBooks : Int) : Int :=
  if totalBooks ≤ 0 then 0
  else if 50 ≤ totalBooks then 99
  else epLoop totalBooks interpTable.tail (0, 0)

/-! ## Python-level exceptions -/
/-- Decidable equality for `Except` results (needed to evaluate the embedding
on concrete inputs). -/
def exceptDecEq {ε α : Type} [DecidableEq ε] [DecidableEq α] :
    (a b : Except ε α) → Decidable (a = b)
  | Except.error e, Except.error f =>
    if h : e = f then isTrue (by rw [h]) else isFalse (fun hh => by cases hh; exact h rfl)
  | Except.error _, Except.ok _ => isFalse (fun hh => by cases hh)
  | Except.ok _, Except.error _ => isFalse (fun hh => by cases hh)
  | Except.ok a, Except.ok b =>
    if h : a = b then isTrue (by rw [h]) else isFalse (fun hh => by cases hh; exact h rfl)

instance {ε α : Type} [DecidableEq ε] [DecidableEq α] : DecidableEq (Except ε α) :=
  exceptDecEq

/-- The exception kinds the embedding distinguishes (`AttributeError` from
calling a Series method on a scalar default, `KeyError` from a missing
column subscript). -/
inductive PyErr where
  | attributeError : PyErr
  | keyError : PyErr
deriving DecidableEq

/-! ## `fix_finished_times` and `load_data` -/
/-- The hand-maintained `raw_fixes` table (title, corrected timestamp). -/
def rawFixes : List (String × Int) :=
  [("Mate (#2)", mkTs 2025 10 7 23 27 0), ("Onyx Storm (#3)", mkTs 2025 1 23 10 30 0)]

/-- Apply one manual correction: prefer rows whose canonical title matches and
whose current created-year equals the correction's year, falling back to any
row with a matching canonical title. -/
def applyFix (cols : List String) (cc : String) (rows : List (List Cell)) (fix : String × Int) :
    List (List Cell) :=
  let df : DF := ⟨cols, rows⟩
  let matchYear := fun r => canonCell (df.cell r "name") == fix.1 &&
    ((cellTs (df.cell r cc)).map tsYear == some (tsYear fix.2))
  let anyTitle := fun r => canonCell (df.cell r "name") == fix.1
  let mask := if rows.any matchYear then matchYear else anyTitle
  rows.map (fun r => if mask r then setCell cols r cc (Cell.ts fix.2) else r)

/-- Models `fix_finished_times`: no created-like column means nothing to fix;
otherwise apply the corrections in order.  A missing `name` column raises
(`out.get("name", "").map` calls `.map` on the scalar `""`). -/
def fixFinishedTimes (df : DF) : Except PyErr DF :=
  match firstColOf df ["created_time", "created", "created_at"] with
  | none => Except.ok df
  | some cc =>
    if !df.hasCol "name" then Except.error PyErr.attributeError
    else
      let fixes := rawFixes.map (fun p => (canonTitle p.1, p.2))
      Except.ok ⟨df.cols, fixes.foldl (applyFix df.cols cc) df.rows⟩

/-- Models `load_data`.  The file system is abstracted: `file` is the parsed
contents of the source path (or `none` when the path does not exist), and the
persist step's two effectful operations — re-reading the original file and
writing the corrected table back — are supplied as oracles that may fail.
The `try/except` swallows any persist failure, so the returned table never
depends on the oracles; the structure below mirrors that. -/
def loadData (file : Option DF) (persistFixes : Bool)
    (rereadOrig : Except Unit DF) (writeBack : Except Unit Unit) : Except PyErr DF :=
  match file with
  | none => Except.ok emptyDF
  | some raw =>
    match fixFinishedTimes (normalizeCols raw) with
    | Except.error e => Except.error e
    | Except.ok df =>
      let _persist : Except Unit Unit :=
        if persistFixes then
          match rereadOrig with
          | Except.error e => Except.error e
          | Except.ok orig => if normalizeCols orig = df then Except.ok () else writeBack
        else Except.ok ()
      Except.ok df

/-! ## `compute_read_speeds` -/
structure BorrowEv where
  normTitle : String
  library : String
  borrowed : Int
deriving DecidableEq

structure MergedRow where
  name : Cell
  author : Cell
  normTitle : String
  created : Int
  library : String
  borrowed : Int
deriving DecidableEq

structure SpeedRow where
  title : Cell
  author : Cell
  library : String
  borrowed : Int
  created : Int
  hours : ℚ
deriving DecidableEq

/-- Status normalization of `compute_read_speeds`
(`.astype(str).str.lower().str.strip()`). -/
def rsStatus (reads : DF) (r : List Cell) : String :=
  pyStripStr (pyLowerStr (cellToStr (reads.cell r "status")))

/-- Completed rows anchored on the created-time column, filtered to `year`. -/
def rsYearRows (reads : DF) (cc : String) (year : Int) : List (List Cell) :=
  reads.rows.filter (fun r => rsStatus reads r == "complete" &&
    ((parseCreatedCell (reads.cell r cc)).map tsYear == some year))

/-- The page filter (`>= 300` when a page-count-like column exists). -/
def rsPageRows (reads : DF) (cc : String) (year : Int) : List (List Cell) :=
  match firstColOf reads ["page_count", "pages", "length_pages"] with
  | some pc => (rsYearRows reads cc year).filter (fun r =>
      match parseNum (reads.cell r pc) with
      | some q => qLe 300 q
      | none => false)
  | none => rsYearRows reads cc year

/-- Borrow/checkout events of the (already column-normalized) timeline:
activity contains "borrow" or "checkout", timestamp parses (UTC), converted
to local time. -/
def rsBorrows (loans : DF) : List BorrowEv :=
  loans.rows.filterMap (fun e =>
    let act := pyLowerStr (cellToStr (loans.cell e "activity"))
    if hasSubstr act "borrow" || hasSubstr act "checkout" then
      match cellTs (loans.cell e "timestamp") with
      | some t => some ⟨canonCell (loans.cell e "title"), cellToStr (loans.cell e "library"), tsLocal t⟩
      | none => none
    else none)

/-- The inner join of completed reads with borrow events on canonical title
(left row order, right matches in right order, as pandas `merge` keeps). -/
def rsMerged (reads : DF) (cc : String) (year : Int) (borrows : List BorrowEv) :
    List MergedRow :=
  (rsPageRows reads cc year).flatMap (fun r =>
    let nm := canonCell (reads.cell r "name")
    let authorC := if reads.hasCol "author" then reads.cell r "author" else Cell.str ""
    let created := (parseCreatedCell (reads.cell r cc)).getD 0
    borrows.filterMap (fun b =>
      if b.normTitle == nm then
        some ⟨reads.cell r "name", authorC, nm, created, b.library, b.borrowed⟩
      else none))

/-- Joined pairs with the checkout not after the finish
(`merged["borrowed"] <= merged[created_col]`). -/
def rsKept (reads : DF) (cc : String) (year : Int) (borrows : List BorrowEv) :
    List MergedRow :=
  (rsMerged reads cc year borrows).filter (fun x => x.borrowed ≤ x.created)

/-- Strict ASCII-lexicographic order on character lists (kernel-reducible,
unlike the Mathlib `String` order instances). -/
def listLtB : List Char → List Char → Bool
  | [], [] => false
  | [], _ :: _ => true
  | _ :: _, [] => false
  | a :: as, b :: bs =>
    if a.toNat < b.toNat then true else if b.toNat < a.toNat then false else listLtB as bs

def strLtB (a b : String) : Bool := listLtB a.data b.data

/-- The lexicographic `sort_values(["title_norm", created_col, "borrowed"])`
order (pandas multi-key sorts are stable, as is `insertionSort`). -/
def mergedRel (a b : MergedRow) : Prop :=
  (strLtB a.normTitle b.normTitle ||
    (a.normTitle == b.normTitle &&
      (decide (a.created < b.created) ||
        (a.created == b.created && decide (a.borrowed ≤ b.borrowed))))) = true

instance : DecidableRel mergedRel := fun a b => by unfold mergedRel; infer_instance

/-- Group-key order for `groupby(["title_norm", created_col])` (pandas sorts
group keys). -/
def keyRel (a b : String × Int) : Prop :=
  (strLtB a.1 b.1 || (a.1 == b.1 && decide (a.2 ≤ b.2))) = true

instance : DecidableRel keyRel := fun a b => by unfold keyRel; infer_instance

/-- First element attaining the maximum of `f` (models `idxmax`, which keeps
the first occurrence of the maximum). -/
def argmaxFirst {α : Type} (f : α → Int) (l : List α) : Option α :=
  l.foldl (fun acc x => match acc with
    | none => some x
    | some b => if f b < f x then some x else acc) none

/-- The per-group chosen rows of `compute_read_speeds`:
sort by (title, created, borrowed), group by (title, created) in sorted key
order, and keep the row of the group's latest borrow. -/
def rsBest (reads : DF) (cc : String) (year : Int) (borrows : List BorrowEv) :
    List MergedRow :=
  let msorted := (rsKept reads cc year borrows).insertionSort mergedRel
  let keys := (msorted.map (fun x => (x.normTitle, x.created))).dedup.insertionSort keyRel
  keys.filterMap (fun k =>
    argmaxFirst (fun x => x.borrowed)
      (msorted.filter (fun x => x.normTitle == k.1 && x.created == k.2)))

/-- Ascending order on elapsed hours for the final
`sort_values("hours_to_finish")` (the embedding's sort is stable; the
source's single-key quicksort leaves tie order unspecified). -/
def speedRel (a b : SpeedRow) : Prop := qLe a.hours b.hours = true

instance : DecidableRel speedRel := fun a b => by unfold speedRel; infer_instance

/-- Output-row construction: raw name and author, the borrow data and
`hours_to_finish = (created - borrowed).total_seconds() / 3600`. -/
def speedOf (x : MergedRow) : SpeedRow :=
  { title := x.name, author := x.author, library := x.library,
    borrowed := x.borrowed, created := x.created,
    hours := qDiv ((x.created - x.borrowed : Int) : ℚ) 3600 }

/-- Models `compute_read_speeds(loans_path, reads_df, year)`.  Empty results
stay empty; a missing `library` or `activity` column raises `AttributeError`
(`loans.get(col, "").astype` on the scalar default), which the caller in
`compute_metrics` catches. -/
def computeReadSpeeds (loansFile : Option DF) (reads : DF) (year : Int) :
    Except PyErr (List SpeedRow) :=
  match loansFile with
  | none => Except.ok []
  | some loansRaw =>
    if reads.isEmptyDF then Except.ok []
    else if !(reads.hasCol "status" && reads.hasCol "name") then Except.ok []
    else match firstColOf reads ["created_time", "created", "created_at"] with
    | none => Except.ok []
    | some cc =>
      if (rsYearRows reads cc year).isEmpty then Except.ok []
      else if (rsPageRows reads cc year).isEmpty then Except.ok []
      else
        let loans := normalizeCols loansRaw
        if !(loans.hasCol "timestamp" && loans.hasCol "title") then Except.ok []
        else if !loans.hasCol "library" then Except.error PyErr.attributeError
        else if !loans.hasCol "activity" then Except.error PyErr.attributeError
        else
          let borrows := rsBorrows loans
          if borrows.isEmpty then Except.ok []
          else if (rsKept reads cc year borrows).isEmpty then Except.ok []
          else
            let out := (rsBest reads cc year borrows).map speedOf
            Except.ok (out.insertionSort speedRel)

/-! ## `compute_metrics` -/
/-- Status normalization of `compute_metrics`
(`.astype(str).str.strip().str.lower()`). -/
def cmStatus (df : DF) (r : List Cell) : String :=
  pyLowerStr (pyStripStr (cellToStr (df.cell r "status")))

/-- Rows whose parsed `finished` year equals the target year. -/
def cmDfYear (df : DF) (year : Int) : List (List Cell) :=
  df.rows.filter (fun r => (cellTs (df.cell r "finished")).map tsYear == some year)

def cmGenreCol (df : DF) : Option String := firstColOf df ["genre", "genres", "category"]

/-- Novella flag: the genre-like column contains "novella" (case-insensitive);
no genre-like column means no novellas. -/
def cmIsNovella (df : DF) (r : List Cell) : Bool :=
  match cmGenreCol df with
  | some gc => hasSubstr (pyLowerStr (cellToStr (df.cell r gc))) "novella"
  | none => false

/-- Completed rows of the target year. -/
def cmCompleted (df : DF) (year : Int) : List (List Cell) :=
  (cmDfYear df year).filter (fun r => cmStatus df r == "complete")

/-- The `borrows` then `borrows_year` filters of the checkout block: activity
contains "borrow" or "checkout", timestamp parses (`dropna`), local-time year
is the target year. -/
def cmBorrowsYear (loans : DF) (year : Int) : List (List Cell) :=
  (loans.rows.filter (fun e =>
    (hasSubstr (pyLowerStr (cellToStr (loans.cell e "activity"))) "borrow" ||
     hasSubstr (pyLowerStr (cellToStr (loans.cell e "activity"))) "checkout") &&
    (cellTs (loans.cell e "timestamp")).isSome)).filter (fun e =>
    ((cellTs (loans.cell e "timestamp")).map (fun t => tsYear (tsLocal t))) == some year)

/-- Canonical titles of the year's borrow events. -/
def cmCheckoutCanons (loans : DF) (year : Int) : List String :=
  (cmBorrowsYear loans year).map (fun e => canonCell (loans.cell e "title"))

/-- Canonical titles of the year's completed records. -/
def cmCompletedCanons (df : DF) (year : Int) : List String :=
  (cmCompleted df year).map (fun r => canonCell (df.cell r "name"))

/-- The `try` block computing checkouts and DNFs from the timeline.  Failures
modelled: missing loans file (`read_csv` raises), missing `timestamp` column
(`.dt` on the scalar `NaT`), missing `activity` column (`.astype` on the
scalar `""`), missing `title` or `name` column (`KeyError`) — all caught by
the `except` and sent to the fallback. -/
def cmCheckouts (df : DF) (year : Int) (loansFile : Option DF) : Except Unit (ℕ × ℕ) :=
  match loansFile with
  | none => Except.error ()
  | some loansRaw =>
    let loans := normalizeCols loansRaw
    if !loans.hasCol "timestamp" then Except.error ()
    else if !loans.hasCol "activity" then Except.error ()
    else if (cmBorrowsYear loans year).isEmpty then Except.ok (0, 0)
    else if !loans.hasCol "title" then Except.error ()
    else if !df.hasCol "name" then Except.error ()
    else
      let checkoutTitles := (cmCheckoutCanons loans year).dedup
      Except.ok (checkoutTitles.length,
        (checkoutTitles.filter (fun t => !(cmCompletedCanons df year).contains t)).length)

/-- Checkouts and DNFs with the `except` fallback (export-row count and
literal "dnf" statuses of the year-filtered table). -/
def cmCheckoutsResolved (df : DF) (year : Int) (loansFile : Option DF) : ℕ × ℕ :=
  match cmCheckouts df year loansFile with
  | Except.ok p => p
  | Except.error _ =>
    ((cmDfYear df year).length,
     ((cmDfYear df year).filter (fun r => cmStatus df r == "dnf")).length)

/-- Cost parsing: strip, exact-replace blank/`nan`/`None`/`free`/`Free` with
missing, strip `$`/`,`/`USD` and every remaining non-digit non-dot character
(the last `.str.replace(r"[^\d.]", "")` subsumes the first two), then
`pd.to_numeric`. -/
def parseCost (c : Cell) : Option ℚ :=
  let s0 := pyStripStr (cellToStr c)
  if s0 = "" ∨ s0 = "nan" ∨ s0 = "None" ∨ s0 = "free" ∨ s0 = "Free" then none
  else parseUnsignedDec (s0.data.filter (fun ch => ch.isDigit || ch = '.'))

/-- Successfully parsed costs of the year's completed rows. -/
def cmCosts (df : DF) (year : Int) : List ℚ :=
  if df.hasCol "cost" then (cmCompleted df year).filterMap (fun r => parseCost (df.cell r "cost"))
  else []

/-- Savings triple (finished, dnf, combined); all zero when no cost parses. -/
def cmSavings (df : DF) (year : Int) (dnfs : ℕ) : ℚ × ℚ × ℚ :=
  let costs := cmCosts df year
  if costs.isEmpty then (0, 0, 0)
  else
    let avg := qDiv (qSum costs) ((costs.length : Int) : ℚ)
    let sf := round2 (qSum costs)
    let sd := round2 (qMul avg ((dnfs : Int) : ℚ))
    (sf, sd, round2 (qAdd sf sd))

/-- The completed audiobook subset (`format` contains "audiobook"; no
`format` column means an empty subset). -/
def cmAud (df : DF) (year : Int) : List (List Cell) :=
  if df.hasCol "format" then
    (cmCompleted df year).filter (fun r =>
      hasSubstr (pyLowerStr (pyStripStr (cellToStr (df.cell r "format")))) "audiobook")
  else []

def cmAbH (df : DF) (r : List Cell) : ℚ := (parseNum (df.cell r "ab_hours")).getD 0

def cmAbM (df : DF) (r : List Cell) : ℚ := (parseNum (df.cell r "ab_minutes")).getD 0

/-- The explicit length-in-minutes column, when one exists
(`"audiobook_length" in c and "minute" in c`). -/
def cmLengthCol (df : DF) : Option String :=
  df.cols.find? (fun c => hasSubstr c "audiobook_length" && hasSubstr c "minute")

/-- Per-record audiobook duration in minutes: the explicit length column if
present and nonzero, else hours-field × 60 + minutes-field (this mirrors the
zero-replacement written into the length column at source line 440). -/
def cmDur (df : DF) (r : List Cell) : ℚ :=
  match cmLengthCol df with
  | some lc =>
    let v := (parseNum (df.cell r lc)).getD 0
    if v = 0 then qAdd (qMul (cmAbH df r) 60) (cmAbM df r) else v
  | none => qAdd (qMul (cmAbH df r) 60) (cmAbM df r)

/-- Month name of the finish date (`.dt.strftime("%B")`). -/
def cmMonthName (df : DF) (r : List Cell) : String :=
  monthName (tsMonth ((cellTs (df.cell r "finished")).getD 0))

/-- Monthly listening hours as the source computes them for "biggest month":
`groupby("month_name")["ab_hours"].sum() + groupby(...)["ab_minutes"].sum()/60`
— note this uses only the hours/minutes fields, not the explicit length
column used for the hours total. -/
def cmMonthHours (df : DF) (year : Int) (mn : String) : ℚ :=
  let rows := (cmAud df year).filter (fun r => cmMonthName df r == mn)
  qAdd (qSum (rows.map (cmAbH df))) (qDiv (qSum (rows.map (cmAbM df))) 60)

/-- ASCII-lexicographic order on strings (the order pandas group keys are
sorted in). -/
def listLeB : List Char → List Char → Bool
  | [], _ => true
  | _ :: _, [] => false
  | a :: as, b :: bs =>
    if a.toNat < b.toNat then true else if b.toNat < a.toNat then false else listLeB as bs

def strRelB (a b : String) : Prop := listLeB a.data b.data = true

instance : DecidableRel strRelB := fun a b => by unfold strRelB; infer_instance

/-- First element attaining the rational maximum of `f` (models `idxmax`). -/
def argmaxFirstQ {α : Type} (f : α → ℚ) (l : List α) : Option α :=
  l.foldl (fun acc x => match acc with
    | none => some x
    | some b => if qLt (f b) (f x) then some x else acc) none

/-- Sorted distinct month names of the audiobook subset (pandas `groupby`
sorts its keys). -/
def cmMonthKeys (df : DF) (year : Int) : List String :=
  (((cmAud df year).map (cmMonthName df)).dedup).insertionSort strRelB

/-- Biggest-month pair: `idxmax` month and `round(max, 1)` hours. -/
def cmBiggest (df : DF) (year : Int) : Option String × ℚ :=
  match argmaxFirstQ (cmMonthHours df year) (cmMonthKeys df year) with
  | some mn => (some mn, round1 (cmMonthHours df year mn))
  | none => (none, 0)

/-- Per-row minutes for author aggregation (source lines 456-464): a raw
`minutes` column if one exists, else the (zero-patched) length column, else
hours × 60 + minutes. -/
def cmMinutes (df : DF) (r : List Cell) : ℚ :=
  if df.hasCol "minutes" then (parseNum (df.cell r "minutes")).getD 0
  else match cmLengthCol df with
  | some _ => cmDur df r
  | none => qAdd (qMul (cmAbH df r) 60) (cmAbM df r)

def cmAuthorOf (df : DF) (r : List Cell) : String :=
  pyStripStr (cellToStr (df.cell r "author"))

/-- First author maximal by (book count, then total minutes), scanning in
ascending author order — this models the stable descending two-key
`sort_values` over the alphabetically-keyed `groupby` plus `iloc[0]`. -/
def pickTopAuthor (score : String → ℕ × ℚ) (l : List String) : Option String :=
  l.foldl (fun acc a => match acc with
    | none => some a
    | some b =>
      let sa := score a
      let sb := score b
      if sb.1 < sa.1 ∨ (sb.1 = sa.1 ∧ qLt sb.2 sa.2) then some a else acc) none

/-- Fields produced by the audiobook / top-author blocks. -/
structure AudFields where
  hoursTotal : ℚ := 0
  biggestMonth : Option String := none
  biggestMonthHours : ℚ := 0
  authorsCount : ℕ := 0
  topAuthor : String := ""
  topAuthorBooks : ℕ := 0
  topAuthorMinutes : ℚ := 0
  topAuthorHours : ℚ := 0
  title1 : String := ""
  title2 : String := ""
deriving DecidableEq

/-- Per-author aggregation of the audiobook subset: book count and summed
minutes (the `groupby("author").agg` of source lines 470-476). -/
def cmAuthorScore (df : DF) (year : Int) (a : String) : ℕ × ℚ :=
  (((cmAud df year).filter (fun r => cmAuthorOf df r == a)).length,
   qSum (((cmAud df year).filter (fun r => cmAuthorOf df r == a)).map (cmMinutes df)))

/-- Top-author fields (name, book count, minutes, hours, top two display
titles); all empty when there is no author row. -/
def cmTopFields (df : DF) (year : Int) : String × ℕ × ℚ × ℚ × String × String :=
  match pickTopAuthor (cmAuthorScore df year)
      ((((cmAud df year).map (cmAuthorOf df)).dedup).insertionSort strRelB) with
  | none => ("", 0, 0, 0, "", "")
  | some ta =>
    let taRows := (cmAud df year).filter (fun r => cmAuthorOf df r == ta)
    let allNa := df.hasCol "minutes" && taRows.all (fun r => df.cell r "minutes" == Cell.na)
    let taSorted :=
      if allNa then
        taRows.insertionSort (fun a b =>
          ((cellTs (df.cell b "finished")).getD 0) ≤ ((cellTs (df.cell a "finished")).getD 0))
      else
        taRows.insertionSort (fun a b => qLe (cmMinutes df b) (cmMinutes df a) = true)
    let titles := (taSorted.take 2).map (fun r => displayTitle (cellToStr (df.cell r "name")))
    (ta, (cmAuthorScore df year ta).1, (cmAuthorScore df year ta).2,
     round1 (qDiv (cmAuthorScore df year ta).2 60), titles.getD 0 "", titles.getD 1 "")

/-- The audiobook and top-author blocks (source lines 425-492).  These run
outside any `try`: with a nonempty audiobook subset, a missing `ab_hours`,
`ab_minutes` or `author` column raises `AttributeError`
(`aud.get(col, default)` returns the scalar default, which has no
`.fillna` / `.astype`). -/
def cmAudSection (df : DF) (year : Int) : Except PyErr AudFields :=
  let aud := cmAud df year
  if aud.isEmpty then Except.ok {}
  else if !df.hasCol "ab_hours" then Except.error PyErr.attributeError
  else if !df.hasCol "ab_minutes" then Except.error PyErr.attributeError
  else if !df.hasCol "author" then Except.error PyErr.attributeError
  else Except.ok {
    hoursTotal := round2 (qDiv (qSum (aud.map (cmDur df))) 60),
    biggestMonth := (cmBiggest df year).1,
    biggestMonthHours := (cmBiggest df year).2,
    authorsCount := (aud.map (cmAuthorOf df)).dedup.length,
    topAuthor := (cmTopFields df year).1,
    topAuthorBooks := (cmTopFields df year).2.1,
    topAuthorMinutes := (cmTopFields df year).2.2.1,
    topAuthorHours := (cmTopFields df year).2.2.2.1,
    title1 := (cmTopFields df year).2.2.2.2.1,
    title2 := (cmTopFields df year).2.2.2.2.2 }

structure Top3Entry where
  title : String
  author : String
  hours : ℚ
deriving DecidableEq

/-- The fastest-reads block (in a `try`: any exception, e.g. the
`AttributeError` from `compute_read_speeds` on a library-less timeline, gives
the empty-top3 defaults). -/
def cmFastest (df : DF) (year : Int) (loansFile : Option DF) :
    String × ℚ × ℚ × Option (List Top3Entry) :=
  match computeReadSpeeds loansFile df year with
  | Except.error _ => ("", 0, 0, some [])
  | Except.ok [] => ("", 0, 0, some [])
  | Except.ok (first :: rest) =>
    (displayTitle (cellToStr first.title), first.hours, round2 (qDiv first.hours 24),
     some (((first :: rest).take 3).map (fun row =>
       ({ title := displayTitle (cellToStr row.title), author := cellToStr row.author,
          hours := round2 row.hours } : Top3Entry))))

/-- Split on any of the separator characters, keeping empty fragments. -/
def splitChars (seps : List Char) : List Char → List (List Char) :=
  go []
where
  go (acc : List Char) : List Char → List (List Char)
    | [] => [acc.reverse]
    | c :: r => if seps.contains c then acc.reverse :: go [] r else go (c :: acc) r

/-- Models Python `str.title()` (ASCII): uppercase an alphabetic character
after a non-alphabetic one, lowercase the rest. -/
def pyTitleAux (prevAlpha : Bool) : List Char → List Char
  | [] => []
  | c :: r =>
    if c.isAlpha then (if prevAlpha then lowerChar c else upperChar c) :: pyTitleAux true r
    else c :: pyTitleAux false r

def pyTitleList (l : List Char) : List Char := pyTitleAux false l

/-- The genre block: drop `[`/`]`/quote characters, split on `,`/`;`/`/`,
strip fragments, drop empties, title-case; distinct count and most frequent
fragment (tie order among equal counts is implementation-defined in the
source; the embedding keeps the first-encountered maximum). -/
def cmGenres (df : DF) (year : Int) : ℕ × String :=
  match cmGenreCol df with
  | none => (0, "")
  | some gc =>
    let frags := (cmCompleted df year).flatMap (fun r =>
      ((splitChars [',', ';', '/']
          ((cellToStr (df.cell r gc)).data.filter
            (fun ch => !(ch = '[' || ch = ']' || ch = Char.ofNat 39)))).map pyStrip).filter
        (fun f => !f.isEmpty))
    if frags.isEmpty then (0, "")
    else
      let norm := frags.map pyTitleList
      let distinct := norm.dedup
      match argmaxFirst (fun g => (norm.count g : Int)) distinct with
      | some g => (distinct.length, String.mk g)
      | none => (distinct.length, "")

/-- The Report (`Metrics` dataclass); defaults mirror the dataclass
defaults. -/
structure Metrics where
  books_checked_out : ℕ := 0
  dnfs : ℕ := 0
  total_books : ℕ := 0
  novella_count : ℕ := 0
  total_finished : ℕ := 0
  percentile : Int := 0
  finished_audiobook_length_2025 : ℚ := 0
  biggest_month : Option String := none
  biggest_month_hours : ℚ := 0
  fastest_title : String := ""
  fastest_days : ℚ := 0
  fastest_hours : ℚ := 0
  fastest_top3 : Option (List Top3Entry) := none
  authors_count : ℕ := 0
  top_author : String := ""
  top_author_books : ℕ := 0
  top_author_minutes : ℚ := 0
  top_author_hours : ℚ := 0
  top_author_book_title_1 : String := ""
  top_author_book_title_2 : String := ""
  genres_count : ℕ := 0
  top_genre : String := ""
  savings_finished : ℚ := 0
  savings_dnf : ℚ := 0
  savings_combined : ℚ := 0
deriving DecidableEq

/-- Models `compute_metrics(df, year, loans_path)`.  Returns `.error` exactly
where an exception would escape the Python function (the audiobook/top-author
blocks, see `cmAudSection`). -/
def computeMetrics (df : DF) (year : Int) (loansFile : Option DF) : Except PyErr Metrics :=
  if df.isEmptyDF || !df.hasCol "status" || !df.hasCol "finished" then Except.ok {}
  else
    let bd := cmCheckoutsResolved df year loansFile
    let sv := cmSavings df year bd.2
    match cmAudSection df year with
    | Except.error e => Except.error e
    | Except.ok af =>
      let fa := cmFastest df year loansFile
      let ge := cmGenres df year
      Except.ok {
        books_checked_out := bd.1, dnfs := bd.2,
        total_books := ((cmCompleted df year).filter (fun r => !cmIsNovella df r)).length,
        novella_count := ((cmCompleted df year).filter (cmIsNovella df)).length,
        total_finished := (cmCompleted df year).length,
        percentile := estimatePercentile ((cmCompleted df year).length : Int),
        finished_audiobook_length_2025 := af.hoursTotal,
        biggest_month := af.biggestMonth, biggest_month_hours := af.biggestMonthHours,
        fastest_title := fa.1, fastest_hours := fa.2.1, fastest_days := fa.2.2.1,
        fastest_top3 := fa.2.2.2,
        authors_count := af.authorsCount, top_author := af.topAuthor,
        top_author_books := af.topAuthorBooks, top_author_minutes := af.topAuthorMinutes,
        top_author_hours := af.topAuthorHours,
        top_author_book_title_1 := af.title1, top_author_book_title_2 := af.title2,
        genres_count := ge.1, top_genre := ge.2,
        savings_finished := sv.1, savings_dnf := sv.2.1, savings_combined := sv.2.2 }

/-! ## Extensional characterizations used in theorem statements -/
/-- The set of canonical titles of borrow/checkout events whose local-time
year is the target year, read directly off the (normalized) loans table. -/
def checkoutTitleSet (loansRaw : DF) (year : Int) : Finset String :=
  let loans := normalizeCols loansRaw
  ((loans.rows.filter (fun e =>
    (hasSubstr (pyLowerStr (cellToStr (loans.cell e "activity"))) "borrow" ||
     hasSubstr (pyLowerStr (cellToStr (loans.cell e "activity"))) "checkout") &&
    ((cellTs (loans.cell e "timestamp")).map (fun t => tsYear (tsLocal t)) == some year))).map
   (fun e => canonCell (loans.cell e "title"))).toFinset

/-- The set of canonical titles of records completed in the target year, read
directly off the reads table. -/
def completedTitleSet (df : DF) (year : Int) : Finset String :=
  ((df.rows.filter (fun r => cmStatus df r == "complete" &&
    (cellTs (df.cell r "finished")).map tsYear == some year)).map
   (fun r => canonCell (df.cell r "name"))).toFinset

/-! ## Concrete tables used by the closed theorems -/
/-- A reads table with one completed 2025 audiobook and no `ab_hours` /
`ab_minutes` columns. -/
def dfNoAbHours : DF := ⟨["name", "status", "finished", "format"],
  [[Cell.str "Book A", Cell.str "complete", Cell.str "2025-01-15", Cell.str "audiobook"]]⟩

/-- The same completed 2025 audiobook with hours/minutes fields but no
`author` column. -/
def dfNoAuthor : DF := ⟨["name", "status", "finished", "format", "ab_hours", "ab_minutes"],
  [[Cell.str "Book A", Cell.str "complete", Cell.str "2025-01-15", Cell.str "audiobook",
    Cell.str "5", Cell.str "0"]]⟩

/-- One completed 2025 audiobook whose explicit length column (120 minutes)
disagrees with its zero hours/minutes fields. -/
def dfLenOnly : DF := ⟨["name", "status", "finished", "format", "ab_hours", "ab_minutes",
                        "audiobook_length_minutes", "author"],
  [[Cell.str "Book B", Cell.str "complete", Cell.str "2025-03-10", Cell.str "audiobook",
    Cell.str "0", Cell.str "0", Cell.str "120", Cell.str "Ann"]]⟩

/-- A loans table with two distinct titles borrowed in 2025 (February, EST). -/
def loansTwo : DF := ⟨["Title", "Timestamp", "Activity", "Library"],
  [[Cell.str "Mate", Cell.str "2025-02-01 10:00:00Z", Cell.str "Borrowed", Cell.str "lib"],
   [Cell.str "Other Book", Cell.str "2025-02-02 10:00:00Z", Cell.str "Checkout", Cell.str "lib"]]⟩

/-- A reads table whose only record of "Mate" finishes in 2026 (the year
after the `loansTwo` checkouts). -/
def dfFinishLater : DF := ⟨["name", "status", "finished"],
  [[Cell.str "Mate (#2)", Cell.str "Complete", Cell.str "2026-01-05"]]⟩

/-- The report for `dfFinishLater` against `loansTwo`: both 2025 checkouts
count as DNFs, because the "Mate" completion is dated 2026. -/
def mFinishLater : Metrics :=
  { books_checked_out := 2, dnfs := 2, fastest_top3 := some [] }

/-- The report for `dfLenOnly` (no loans file): the hours total follows the
explicit 120-minute length column, but the biggest-month hours follow the
zero `ab_hours`/`ab_minutes` fields. -/
def mLenOnly : Metrics :=
  { books_checked_out := 1, dnfs := 0, total_books := 1, novella_count := 0,
    total_finished := 1, percentile := 46, finished_audiobook_length_2025 := 2,
    biggest_month := some "March", biggest_month_hours := 0, fastest_top3 := some [],
    authors_count := 1, top_author := "Ann", top_author_books := 1,
    top_author_minutes := 120, top_author_hours := 2,
    top_author_book_title_1 := "Book B" }

/-- A reads table lacking a `status` column (the guard case). -/
def dfNoStatus : DF := ⟨["name", "finished"],
  [[Cell.str "Mate (#2)", Cell.str "2025-06-05"]]⟩

/-- One completed 2025 record with a dollar cost (no audiobook columns). -/
def dfCostW : DF := ⟨["name", "status", "finished", "cost"],
  [[Cell.str "Mate (#2)", Cell.str "Complete", Cell.str "2025-06-05", Cell.str "$10.00"]]⟩

/-- The full report for `dfCostW` against `loansTwo` ("Mate" is completed,
"Other Book" is the one DNF; the average cost 10 prices it). -/
def mCostW : Metrics :=
  { books_checked_out := 2, dnfs := 1, total_books := 1, novella_count := 0,
    total_finished := 1, percentile := 46, fastest_top3 := some [],
    savings_finished := 10, savings_dnf := 10, savings_combined := 20 }

/-- Record completed in 2025 by `finished`, but whose `created_time` falls in
December 2024. -/
def dfFinTwentyFive : DF := ⟨["name", "status", "finished", "created_time"],
  [[Cell.str "Later Log", Cell.str "complete", Cell.str "2025-01-10",
    Cell.str "2024-12-30 10:00"]]⟩

/-- Record completed in 2024 by `finished`, but whose `created_time` falls in
January 2025. -/
def dfFinTwentyFour : DF := ⟨["name", "status", "finished", "created_time"],
  [[Cell.str "Later Log", Cell.str "complete", Cell.str "2024-12-31",
    Cell.str "2025-01-02 10:00"]]⟩

/-- A borrow of the same title in December 2024 (EST). -/
def loansLater : DF := ⟨["title", "timestamp", "activity", "library"],
  [[Cell.str "Later Log", Cell.str "2024-12-20 15:00:00Z", Cell.str "Borrowed", Cell.str "lib"]]⟩

/-- A row of "Mate (#2)" whose created time is wrong (2025) and whose
`finished` cell the correction must not touch. -/
def dfMateFix : DF := ⟨["name", "status", "finished", "created_time"],
  [[Cell.str "Mate (#2)", Cell.str "complete", Cell.str "2025-10-08",
    Cell.str "2025-01-01 00:00"]]⟩

/-- `dfMateFix` after `fix_finished_times`: only the `created_time` cell is
overwritten (with the correction-table instant); `finished` is untouched. -/
def dfMateFixed : DF := ⟨["name", "status", "finished", "created_time"],
  [[Cell.str "Mate (#2)", Cell.str "complete", Cell.str "2025-10-08",
    Cell.ts (mkTs 2025 10 7 23 27 0)]]⟩

/-- A February completion created `2025-02-10 12:00` local. -/
def readsC4 : DF := ⟨["name", "status", "created_time"],
  [[Cell.str "Winter Book", Cell.str "Complete", Cell.str "2025-02-10 12:00"]]⟩

/-- Three borrows of the same title: two before the finish (the later one
must be chosen) and one after it (must be discarded). -/
def loansC4 : DF := ⟨["title", "timestamp", "activity", "library"],
  [[Cell.str "Winter Book", Cell.str "2025-02-01 10:00:00Z", Cell.str "Borrowed", Cell.str "lib1"],
   [Cell.str "Winter Book", Cell.str "2025-02-05 10:00:00Z", Cell.str "Borrowed", Cell.str "lib1"],
   [Cell.str "Winter Book", Cell.str "2025-03-05 10:00:00Z", Cell.str "Borrowed", Cell.str "lib1"]]⟩

/-- The fastest-read output for `readsC4` / `loansC4`: the Feb 05 borrow
(05:00 EST), 127 elapsed hours. -/
def outC4 : List SpeedRow :=
  [{ title := Cell.str "Winter Book", author := Cell.str "", library := "lib1",
     borrowed := mkTs 2025 2 5 10 0 0 - 18000, created := mkTs 2025 2 10 12 0 0,
     hours := 127 }]

/-! ### Canonicalization algebra (C7) -/
/-- Maximal word-character runs ("tokens" in the `\b`-boundary sense); `cur`
is the reversed run in progress. -/
def tokensAux : List Char → List Char → List (List Char)
  | cur, [] => if cur.isEmpty then [] else [cur.reverse]
  | cur, c :: r =>
    if isWordChar c then tokensAux (c :: cur) r
    else if cur.isEmpty then tokensAux [] r else cur.reverse :: tokensAux [] r

def tokens (l : List Char) : List (List Char) := tokensAux [] l

/-- A character the canon pipeline can emit: a lowercase-fixed word character
or a plain space. -/
def goodChar (c : Char) : Bool := (isWordChar c && lowerChar c == c) || c == ' '

/-- No two adjacent plain spaces. -/
def noDbl : List Char → Bool
  | [] => true
  | [_] => true
  | a :: b :: r => !(a == ' ' && b == ' ') && noDbl (b :: r)

/-- Fixed points of the canon pipeline: good characters only, no double
space, no leading or trailing space, and no `\breread\b` match. -/
def Good (l : List Char) : Bool :=
  l.all goodChar && noDbl l && l.head? != some ' ' && l.getLast? != some ' ' &&
    !hasMatch false l

/-! ## Theorems -/

theorem findClose_length {cl : Char} :
    ∀ {l r : List Char}, findClose cl l = some r → r.length < l.length := by
  intro l
  induction l with
  | nil => intro r h; simp [findClose] at h
  | cons c t ih =>
    intro r h
    simp only [findClose] at h
    split at h
    · cases h; simp
    · split at h
      · cases h
      · exact Nat.lt_trans (ih h) (by simp)

theorem qden_ne (a : ℚ) : ((a.den : ℚ)) ≠ 0 := by
  exact_mod_cast a.den_nz

theorem qnum_cast (a : ℚ) : ((a.num : ℚ)) = a * (a.den : ℚ) := by
  nth_rewrite 2 [← Rat.num_div_den a]
  rw [div_mul_cancel₀ _ (qden_ne a)]

theorem qAdd_eq (a b : ℚ) : qAdd a b = a + b := by
  rw [qAdd, Rat.divInt_eq_div]
  push_cast
  rw [div_eq_iff (mul_ne_zero (qden_ne a) (qden_ne b)), qnum_cast a, qnum_cast b]
  ring

theorem qSub_eq (a b : ℚ) : qSub a b = a - b := by
  rw [qSub, Rat.divInt_eq_div]
  push_cast
  rw [div_eq_iff (mul_ne_zero (qden_ne a) (qden_ne b)), qnum_cast a, qnum_cast b]
  ring

theorem qMul_eq (a b : ℚ) : qMul a b = a * b := by
  rw [qMul, Rat.divInt_eq_div]
  push_cast
  rw [div_eq_iff (mul_ne_zero (qden_ne a) (qden_ne b)), qnum_cast a, qnum_cast b]
  ring

theorem qDiv_eq (a b : ℚ) : qDiv a b = a / b := by
  rcases eq_or_ne b 0 with rfl | hb
  · simp [qDiv, Rat.divInt_eq_div]
  · have hbn : ((b.num : ℚ)) ≠ 0 := by
      exact_mod_cast Rat.num_ne_zero.mpr hb
    rw [qDiv, Rat.divInt_eq_div, eq_div_iff hb]
    push_cast
    rw [div_mul_eq_mul_div, div_eq_iff (mul_ne_zero (qden_ne a) hbn),
      qnum_cast a, qnum_cast b]
    ring

theorem qLe_iff (a b : ℚ) : qLe a b = true ↔ a ≤ b := by
  rw [qLe, decide_eq_true_eq, Rat.le_def]

theorem qLt_iff (a b : ℚ) : qLt a b = true ↔ a < b := by
  rw [qLt, decide_eq_true_eq, Rat.lt_def]

theorem qSum_eq (l : List ℚ) : qSum l = l.sum := by
  have h : ∀ (init : ℚ) (l : List ℚ), l.foldl qAdd init = init + l.sum := by
    intro init l
    induction l generalizing init with
    | nil => simp
    | cons x t ih => simp [List.foldl_cons, qAdd_eq, ih, add_assoc]
  simpa using h 0 l

theorem listLtB_trichotomy : ∀ a b : List Char,
    listLtB a b = true ∨ a = b ∨ listLtB b a = true := by
  intro a
  induction a with
  | nil =>
    intro b
    cases b with
    | nil => exact Or.inr (Or.inl rfl)
    | cons y ys => exact Or.inl rfl
  | cons x xs ih =>
    intro b
    cases b with
    | nil => exact Or.inr (Or.inr rfl)
    | cons y ys =>
      simp only [listLtB]
      by_cases h1 : x.toNat < y.toNat
      · exact Or.inl (by simp [h1])
      · by_cases h2 : y.toNat < x.toNat
        · exact Or.inr (Or.inr (by simp [h2]))
        · have hxy : x = y := by
            have e : x.toNat = y.toNat := by omega
            calc x = Char.ofNat x.toNat := (Char.ofNat_toNat x).symm
            _ = Char.ofNat y.toNat := by rw [e]
            _ = y := Char.ofNat_toNat y
          rcases ih ys with h | h | h
          · exact Or.inl (by simp [h1, h2, h])
          · exact Or.inr (Or.inl (by rw [hxy, h]))
          · exact Or.inr (Or.inr (by simp [h1, h2, h]))

theorem listLtB_trans : ∀ a b c : List Char,
    listLtB a b = true → listLtB b c = true → listLtB a c = true := by
  intro a
  induction a with
  | nil =>
    intro b c hab hbc
    cases b with
    | nil => simp [listLtB] at hab
    | cons y ys =>
      cases c with
      | nil => simp [listLtB] at hbc
      | cons z zs => simp [listLtB]
  | cons x xs ih =>
    intro b c hab hbc
    cases b with
    | nil => simp [listLtB] at hab
    | cons y ys =>
      cases c with
      | nil => simp [listLtB] at hbc
      | cons z zs =>
        simp only [listLtB] at hab hbc ⊢
        by_cases h1 : x.toNat < y.toNat
        · by_cases h2 : y.toNat < z.toNat
          · simp [show x.toNat < z.toNat by omega]
          · by_cases h3 : z.toNat < y.toNat
            · rw [if_neg h2, if_pos h3] at hbc
              exact absurd hbc (by simp)
            · simp [show x.toNat < z.toNat by omega]
        · by_cases h1' : y.toNat < x.toNat
          · rw [if_neg h1, if_pos h1'] at hab
            exact absurd hab (by simp)
          · rw [if_neg h1, if_neg h1'] at hab
            by_cases h2 : y.toNat < z.toNat
            · simp [show x.toNat < z.toNat by omega]
            · by_cases h3 : z.toNat < y.toNat
              · rw [if_neg h2, if_pos h3] at hbc
                exact absurd hbc (by simp)
              · rw [if_neg h2, if_neg h3] at hbc
                rw [if_neg (show ¬x.toNat < z.toNat by omega),
                  if_neg (show ¬z.toNat < x.toNat by omega)]
                exact ih ys zs hab hbc

theorem strLtB_trichotomy (a b : String) :
    strLtB a b = true ∨ a = b ∨ strLtB b a = true := by
  rcases listLtB_trichotomy a.data b.data with h | h | h
  · exact Or.inl h
  · refine Or.inr (Or.inl ?_)
    cases a
    cases b
    exact congrArg String.mk h
  · exact Or.inr (Or.inr h)

theorem mergedRel_iff (a b : MergedRow) : mergedRel a b ↔
    (strLtB a.normTitle b.normTitle = true ∨ (a.normTitle = b.normTitle ∧
      (a.created < b.created ∨ (a.created = b.created ∧ a.borrowed ≤ b.borrowed)))) := by
  unfold mergedRel
  simp [Bool.or_eq_true, Bool.and_eq_true, beq_iff_eq]

instance : IsTotal MergedRow mergedRel where
  total a b := by
    rw [mergedRel_iff, mergedRel_iff]
    rcases strLtB_trichotomy a.normTitle b.normTitle with h | h | h
    · exact Or.inl (Or.inl h)
    · rcases lt_trichotomy a.created b.created with h2 | h2 | h2
      · exact Or.inl (Or.inr ⟨h, Or.inl h2⟩)
      · rcases le_total a.borrowed b.borrowed with h3 | h3
        · exact Or.inl (Or.inr ⟨h, Or.inr ⟨h2, h3⟩⟩)
        · exact Or.inr (Or.inr ⟨h.symm, Or.inr ⟨h2.symm, h3⟩⟩)
      · exact Or.inr (Or.inr ⟨h.symm, Or.inl h2⟩)
    · exact Or.inr (Or.inl h)

theorem listLtB_irrefl : ∀ l : List Char, listLtB l l = false := by
  intro l
  induction l with
  | nil => rfl
  | cons x xs ih =>
    simp only [listLtB]
    rw [if_neg (Nat.lt_irrefl _), if_neg (Nat.lt_irrefl _)]
    exact ih

theorem strLtB_not_both {a b : String} (h : strLtB a b = true) (h2 : strLtB b a = true) :
    False := by
  unfold strLtB at h h2
  have h3 := listLtB_trans a.data b.data a.data h h2
  rw [listLtB_irrefl] at h3
  exact absurd h3 (by simp)

instance : IsTrans MergedRow mergedRel where
  trans a b c hab hbc := by
    rw [mergedRel_iff] at *
    rcases hab with h1 | ⟨e1, h1⟩ <;> rcases hbc with h2 | ⟨e2, h2⟩
    · exact Or.inl (listLtB_trans _ _ _ h1 h2)
    · exact Or.inl (e2 ▸ h1)
    · exact Or.inl (e1 ▸ h2)
    · refine Or.inr ⟨e1.trans e2, ?_⟩
      rcases h1 with h1 | ⟨f1, h1⟩ <;> rcases h2 with h2 | ⟨f2, h2⟩
      · exact Or.inl (h1.trans h2)
      · exact Or.inl (f2 ▸ h1)
      · exact Or.inl (f1 ▸ h2)
      · exact Or.inr ⟨f1.trans f2, h1.trans h2⟩

theorem keyRel_iff (a b : String × Int) : keyRel a b ↔
    (strLtB a.1 b.1 = true ∨ (a.1 = b.1 ∧ a.2 ≤ b.2)) := by
  unfold keyRel
  simp [Bool.or_eq_true, Bool.and_eq_true, beq_iff_eq]

instance : IsTotal (String × Int) keyRel where
  total a b := by
    rw [keyRel_iff, keyRel_iff]
    rcases strLtB_trichotomy a.1 b.1 with h | h | h
    · exact Or.inl (Or.inl h)
    · rcases le_total a.2 b.2 with h2 | h2
      · exact Or.inl (Or.inr ⟨h, h2⟩)
      · exact Or.inr (Or.inr ⟨h.symm, h2⟩)
    · exact Or.inr (Or.inl h)

instance : IsTrans (String × Int) keyRel where
  trans a b c hab hbc := by
    rw [keyRel_iff] at *
    rcases hab with h1 | ⟨e1, h1⟩ <;> rcases hbc with h2 | ⟨e2, h2⟩
    · exact Or.inl (listLtB_trans _ _ _ h1 h2)
    · exact Or.inl (e2 ▸ h1)
    · exact Or.inl (e1 ▸ h2)
    · exact Or.inr ⟨e1.trans e2, h1.trans h2⟩

instance : IsTotal SpeedRow speedRel where
  total a b := by
    unfold speedRel
    rw [qLe_iff, qLe_iff]
    exact le_total a.hours b.hours

instance : IsTrans SpeedRow speedRel where
  trans a b c hab hbc := by
    unfold speedRel at *
    rw [qLe_iff] at *
    exact hab.trans hbc

theorem listLeB_total : ∀ a b : List Char, listLeB a b || listLeB b a := by
  intro a
  induction a with
  | nil => intro b; simp [listLeB]
  | cons x xs ih =>
    intro b
    cases b with
    | nil => simp [listLeB]
    | cons y ys =>
      simp only [listLeB]
      rcases Nat.lt_trichotomy x.toNat y.toNat with h | h | h
      · simp [h]
      · simp [h, Nat.lt_irrefl, ih ys]
      · simp [h, Nat.lt_asymm h]

theorem listLeB_trans : ∀ a b c : List Char,
    listLeB a b = true → listLeB b c = true → listLeB a c = true := by
  intro a
  induction a with
  | nil => intro b c _ _; simp [listLeB]
  | cons x xs ih =>
    intro b c hab hbc
    cases b with
    | nil => simp [listLeB] at hab
    | cons y ys =>
      cases c with
      | nil => simp [listLeB] at hbc
      | cons z zs =>
        simp only [listLeB] at hab hbc ⊢
        by_cases h1 : x.toNat < y.toNat
        · by_cases h2 : y.toNat < z.toNat
          · simp [show x.toNat < z.toNat by omega]
          · by_cases h3 : z.toNat < y.toNat
            · rw [if_neg h2, if_pos h3] at hbc
              exact absurd hbc (by simp)
            · simp [show x.toNat < z.toNat by omega]
        · by_cases h1' : y.toNat < x.toNat
          · rw [if_neg h1, if_pos h1'] at hab
            exact absurd hab (by simp)
          · rw [if_neg h1, if_neg h1'] at hab
            by_cases h2 : y.toNat < z.toNat
            · simp [show x.toNat < z.toNat by omega]
            · by_cases h3 : z.toNat < y.toNat
              · rw [if_neg h2, if_pos h3] at hbc
                exact absurd hbc (by simp)
              · rw [if_neg h2, if_neg h3] at hbc
                rw [if_neg (show ¬x.toNat < z.toNat by omega),
                  if_neg (show ¬z.toNat < x.toNat by omega)]
                exact ih ys zs hab hbc

instance : IsTotal String strRelB where
  total a b := by
    unfold strRelB
    have := listLeB_total a.data b.data
    rcases Bool.or_eq_true_iff.mp this with h | h
    · exact Or.inl h
    · exact Or.inr h

instance : IsTrans String strRelB where
  trans a b c hab hbc := listLeB_trans a.data b.data c.data hab hbc

/-! ## Claim theorems -/
/-- With the guard of source lines 347-349 true, `compute_metrics` returns
the all-default report. -/
theorem computeMetrics_guard_ok (df : DF) (year : Int) (loansFile : Option DF)
    (h : (df.isEmptyDF || !df.hasCol "status" || !df.hasCol "finished") = true) :
    computeMetrics df year loansFile = Except.ok {} := by
  unfold computeMetrics
  rw [if_pos h]

/-- Claim C10: if the reads table is empty or lacks a `status` or `finished`
column, `compute_metrics` returns the all-default `Metrics` for every loans
input — in particular `books_checked_out` and `dnfs` stay 0 no matter what
borrow events the loans file holds, because the loan file is never
consulted. -/
theorem C10_guard_short_circuit (df : DF) (year : Int) (loansFile : Option DF)
    (h : (df.isEmptyDF || !df.hasCol "status" || !df.hasCol "finished") = true) :
    computeMetrics df year loansFile = Except.ok {} ∧
    ({} : Metrics).books_checked_out = 0 ∧ ({} : Metrics).dnfs = 0 :=
  ⟨computeMetrics_guard_ok df year loansFile h, rfl, rfl⟩

/-- Witness for C10: a reads table without a `status` column, against a loans
file that does contain 2025 borrow events. -/
theorem C10_guard_short_circuit_witness :
    (dfNoStatus.isEmptyDF || !dfNoStatus.hasCol "status" || !dfNoStatus.hasCol "finished") = true ∧
    computeMetrics dfNoStatus 2025 (some loansTwo) = Except.ok {} := by
  refine ⟨by decide, ?_⟩
  exact (C10_guard_short_circuit dfNoStatus 2025 (some loansTwo) (by decide)).1

/-- Claim C1 (code bug): `compute_metrics` is supposed to degrade gracefully
on missing optional columns, but with a completed audiobook row present it
raises `AttributeError` when `ab_hours` is absent
(`pd.to_numeric(aud.get("ab_hours", 0), ...).fillna(0)` calls `.fillna` on
the scalar `0`, source line 434), and likewise when `author` is absent
(`aud.get("author", "").astype(str)` calls `.astype` on `""`, line 466). -/
theorem C1_metrics_raises_on_missing_audiobook_columns :
    computeMetrics dfNoAbHours 2025 none = Except.error PyErr.attributeError ∧
    computeMetrics dfNoAuthor 2025 none = Except.error PyErr.attributeError := by
  constructor
  · decide
  · decide

/-- Claim C8: the loader returns an empty table when the path does not exist,
and the persist step can never change (or abort) the returned table: the
result is the corrected, column-normalized table whatever the re-read and
write-back oracles do. -/
theorem C8_loader_missing_file_and_persist :
    (∀ (p : Bool) (rr : Except Unit DF) (w : Except Unit Unit),
       loadData none p rr w = Except.ok emptyDF) ∧
    (∀ (d : DF) (p : Bool) (rr rr2 : Except Unit DF) (w w2 : Except Unit Unit),
       loadData (some d) p rr w = loadData (some d) p rr2 w2) ∧
    (∀ (d : DF) (p : Bool) (rr : Except Unit DF) (w : Except Unit Unit) (t : DF),
       loadData (some d) p rr w = Except.ok t →
         fixFinishedTimes (normalizeCols d) = Except.ok t) := by
  refine ⟨fun _ _ _ => rfl, ?_, ?_⟩
  · intro d p rr rr2 w w2
    unfold loadData
    cases fixFinishedTimes (normalizeCols d) <;> rfl
  · intro d p rr w t hm
    unfold loadData at hm
    cases h2 : fixFinishedTimes (normalizeCols d) <;> simp only [h2] at hm
    · exact absurd hm (by simp)
    · exact hm

/-- Witness for C8: a concrete load through failing persist oracles still
returns the corrected table, which is `fix_finished_times` of the normalized
input. -/
theorem C8_loader_missing_file_and_persist_witness :
    loadData (some dfMateFix) true (Except.error ()) (Except.error ()) = Except.ok dfMateFixed ∧
    fixFinishedTimes (normalizeCols dfMateFix) = Except.ok dfMateFixed := by
  have h : loadData (some dfMateFix) true (Except.error ()) (Except.error ()) =
      Except.ok dfMateFixed := by decide
  exact ⟨h, C8_loader_missing_file_and_persist.2.2 dfMateFix true (Except.error ())
    (Except.error ()) dfMateFixed h⟩

/-- Claim C9: `compute_metrics` buckets by the year of the `finished`
column, while `compute_read_speeds` selects completions — and measures
elapsed time — by the `created_time` column (the only column the manual
corrections of `fix_finished_times` patch).  Concretely: a record finished in
2025 whose created time is in December 2024 counts in the 2025 metrics but is
absent from the 2025 fastest-read candidates even though a matching borrow
exists; conversely a record finished in 2024 with a January 2025 created time
is excluded from the 2025 metrics yet produces a 2025 fastest-read row, whose
elapsed hours run from the borrow to the created time. -/
theorem C9_finished_vs_created_time_divergence :
    ((computeMetrics dfFinTwentyFive 2025 (some loansLater)).map
        (fun m => m.total_finished) = Except.ok 1 ∧
      computeReadSpeeds (some loansLater) dfFinTwentyFive 2025 = Except.ok []) ∧
    ((computeMetrics dfFinTwentyFour 2025 (some loansLater)).map
        (fun m => m.total_finished) = Except.ok 0 ∧
      (computeReadSpeeds (some loansLater) dfFinTwentyFour 2025).map
          (fun l => l.map (fun r => (r.created, r.hours))) =
        Except.ok [(mkTs 2025 1 2 10 0 0, 312)]) ∧
    fixFinishedTimes dfMateFix = Except.ok dfMateFixed := by
  refine ⟨⟨?_, ?_⟩, ⟨?_, ?_⟩, ?_⟩ <;> decide

/-- `estimate_percentile` is 0 on non-positive counts. -/
theorem ep_nonpos {n : Int} (h : n ≤ 0) : estimatePercentile n = 0 := by
  unfold estimatePercentile
  rw [if_pos h]

/-- `estimate_percentile` is 99 from 50 books up. -/
theorem ep_ge50 {n : Int} (h : 50 ≤ n) : estimatePercentile n = 99 := by
  unfold estimatePercentile
  rw [if_neg (by omega), if_pos h]

/-- One step of monotonicity, over all integers. -/
theorem ep_step (n : Int) : estimatePercentile n ≤ estimatePercentile (n + 1) := by
  have hStep : ∀ k : ℕ, k < 50 →
      estimatePercentile (k : Int) ≤ estimatePercentile ((k : Int) + 1) := by decide
  rcases le_or_lt (n + 1) 0 with h | h
  · rw [ep_nonpos (by omega), ep_nonpos (by omega)]
  · rcases le_or_lt 50 n with h2 | h2
    · rw [ep_ge50 h2, ep_ge50 (by omega)]
    · have hn : n = ((n.toNat : ℕ) : Int) := by omega
      have hk : n.toNat < 50 := by omega
      rw [hn]
      exact hStep n.toNat hk

/-- Claim C5: the percentile lookup is a pure function of the book count with
`percentile(0) = 0`, `percentile(n) = 99` for every `n ≥ 50`,
`percentile(5)` strictly between `percentile(4)` and `percentile(6)`,
monotone non-decreasing over all integers, and, between two consecutive
bracket-table entries, equal to the linear interpolation by book count
rounded to the nearest integer (Python `round`, half to even). -/
theorem C5_percentile_spec :
    estimatePercentile 0 = 0 ∧
    (∀ n : Int, 50 ≤ n → estimatePercentile n = 99) ∧
    (estimatePercentile 4 < estimatePercentile 5 ∧
      estimatePercentile 5 < estimatePercentile 6) ∧
    (∀ a b : Int, a ≤ b → estimatePercentile a ≤ estimatePercentile b) ∧
    (∀ i : ℕ, i + 1 < interpTable.length → ∀ n : Int,
      (interpTable.getD i (0, 0)).1 < n → n ≤ (interpTable.getD (i + 1) (0, 0)).1 →
      estimatePercentile n =
        pyRound (((interpTable.getD i (0, 0)).2 : ℚ) +
          ((n - (interpTable.getD i (0, 0)).1 : Int) : ℚ) /
            (((interpTable.getD (i + 1) (0, 0)).1 - (interpTable.getD i (0, 0)).1 : Int) : ℚ) *
          (((interpTable.getD (i + 1) (0, 0)).2 - (interpTable.getD i (0, 0)).2 : Int) : ℚ))) := by
  refine ⟨by decide, fun n h => ep_ge50 h, by decide, ?_, ?_⟩
  · intro a b hab
    have key : ∀ m : ℕ, estimatePercentile a ≤ estimatePercentile (a + (m : Int)) := by
      intro m
      induction m with
      | zero => simp
      | succ k ih =>
        calc estimatePercentile a ≤ estimatePercentile (a + (k : Int)) := ih
        _ ≤ estimatePercentile (a + (k : Int) + 1) := ep_step _
        _ = estimatePercentile (a + ((k + 1 : ℕ) : Int)) := by
            congr 1
            push_cast
            ring
    have hm : b = a + ((b - a).toNat : Int) := by omega
    rw [hm]
    exact key (b - a).toNat
  · have hFin : ∀ i : ℕ, i < 15 → ∀ k : ℕ, k < 51 →
        ((interpTable.getD i (0, 0)).1 < (k : Int) ∧
          (k : Int) ≤ (interpTable.getD (i + 1) (0, 0)).1) →
        estimatePercentile (k : Int) =
          pyRound (qAdd ((interpTable.getD i (0, 0)).2 : ℚ)
            (qMul (qDiv (((k : Int) - (interpTable.getD i (0, 0)).1 : Int) : ℚ)
                (((interpTable.getD (i + 1) (0, 0)).1 - (interpTable.getD i (0, 0)).1 : Int) : ℚ))
              (((interpTable.getD (i + 1) (0, 0)).2 - (interpTable.getD i (0, 0)).2 : Int) : ℚ))) := by
      decide
    have hPos : ∀ i : ℕ, i < 16 → 0 ≤ (interpTable.getD i (0, 0)).1 ∧
        (interpTable.getD i (0, 0)).1 ≤ 50 := by decide
    intro i hi n h1 h2
    have hlen : interpTable.length = 16 := by decide
    rw [hlen] at hi
    have hlo := hPos i (by omega)
    have hhi := hPos (i + 1) (by omega)
    have hn : n = ((n.toNat : ℕ) : Int) := by omega
    have hk : n.toNat < 51 := by omega
    have := hFin i (by omega) n.toNat hk (by constructor <;> omega)
    rw [qAdd_eq, qMul_eq, qDiv_eq] at this
    rw [hn]
    exact this

/-- Witness for C5: the tail clause at 60, monotonicity at (3, 7), and the
interpolation clause on the (10, 79)–(15, 85) bracket at 12 books
(79 + (2/5)·6 = 81.4, rounded to 81). -/
theorem C5_percentile_spec_witness :
    estimatePercentile 60 = 99 ∧
    estimatePercentile 3 ≤ estimatePercentile 7 ∧
    estimatePercentile 12 = 81 := by
  refine ⟨C5_percentile_spec.2.1 60 (by decide),
    C5_percentile_spec.2.2.2.1 3 7 (by decide), ?_⟩
  have h := C5_percentile_spec.2.2.2.2 10 (by decide) 12 (by decide) (by decide)
  rw [← qDiv_eq, ← qMul_eq, ← qAdd_eq] at h
  rw [h]
  decide

/-! ### Shared unfolding lemmas for `compute_metrics` -/
theorem findIdx_of_contains_false {l : List String} {c : String}
    (h : l.contains c = false) : l.findIdx? (fun x => x = c) = none := by
  rw [List.findIdx?_eq_none_iff]
  intro x hx
  simp only [decide_eq_false_iff_not]
  intro heq
  subst heq
  rw [show l.contains x = List.elem x l from rfl, List.elem_eq_true_of_mem hx] at h
  exact absurd h (by simp)

theorem cell_of_missing_col {df : DF} {c : String} (r : List Cell)
    (h : df.hasCol c = false) : df.cell r c = Cell.na := by
  unfold DF.cell
  rw [findIdx_of_contains_false h]

/-- When the `compute_metrics` guard fires, there are no completed rows of
the year (so cost parsing sees nothing). -/
theorem guardFail_completed_nil (df : DF) (year : Int)
    (h : (df.isEmptyDF || !df.hasCol "status" || !df.hasCol "finished") = true) :
    cmCompleted df year = [] := by
  rw [Bool.or_eq_true, Bool.or_eq_true] at h
  rcases h with (h | h) | h
  · unfold DF.isEmptyDF at h
    rw [Bool.or_eq_true] at h
    rcases h with h | h
    · rw [List.isEmpty_iff] at h
      unfold cmCompleted cmDfYear
      rw [h]
      rfl
    · have hcols : df.cols = [] := List.isEmpty_iff.mp h
      have hf : df.hasCol "finished" = false := by
        unfold DF.hasCol
        rw [hcols]
        rfl
      unfold cmCompleted cmDfYear
      rw [List.filter_filter]
      apply List.filter_eq_nil_iff.mpr
      intro r _
      rw [cell_of_missing_col r hf]
      simp [cellTs]
  · rw [Bool.not_eq_true'] at h
    unfold cmCompleted
    apply List.filter_eq_nil_iff.mpr
    intro r _
    unfold cmStatus
    rw [cell_of_missing_col r h]
    decide
  · rw [Bool.not_eq_true'] at h
    unfold cmCompleted cmDfYear
    rw [List.filter_filter]
    apply List.filter_eq_nil_iff.mpr
    intro r _
    rw [cell_of_missing_col r h]
    simp [cellTs]

/-- The explicit shape of a successful `compute_metrics` run (guard passed,
audiobook section did not raise). -/
theorem computeMetrics_unfold (df : DF) (year : Int) (L : Option DF)
    (hg : (df.isEmptyDF || !df.hasCol "status" || !df.hasCol "finished") = false) :
    computeMetrics df year L =
      match cmAudSection df year with
      | Except.error e => Except.error e
      | Except.ok af => Except.ok {
          books_checked_out := (cmCheckoutsResolved df year L).1,
          dnfs := (cmCheckoutsResolved df year L).2,
          total_books := ((cmCompleted df year).filter (fun r => !cmIsNovella df r)).length,
          novella_count := ((cmCompleted df year).filter (cmIsNovella df)).length,
          total_finished := (cmCompleted df year).length,
          percentile := estimatePercentile ((cmCompleted df year).length : Int),
          finished_audiobook_length_2025 := af.hoursTotal,
          biggest_month := af.biggestMonth,
          biggest_month_hours := af.biggestMonthHours,
          fastest_title := (cmFastest df year L).1,
          fastest_hours := (cmFastest df year L).2.1,
          fastest_days := (cmFastest df year L).2.2.1,
          fastest_top3 := (cmFastest df year L).2.2.2,
          authors_count := af.authorsCount, top_author := af.topAuthor,
          top_author_books := af.topAuthorBooks,
          top_author_minutes := af.topAuthorMinutes,
          top_author_hours := af.topAuthorHours,
          top_author_book_title_1 := af.title1, top_author_book_title_2 := af.title2,
          genres_count := (cmGenres df year).1, top_genre := (cmGenres df year).2,
          savings_finished := (cmSavings df year (cmCheckoutsResolved df year L).2).1,
          savings_dnf := (cmSavings df year (cmCheckoutsResolved df year L).2).2.1,
          savings_combined := (cmSavings df year (cmCheckoutsResolved df year L).2).2.2 } := by
  unfold computeMetrics
  simp only [hg, Bool.false_eq_true, if_false]

/-! ### Rounding shape lemmas -/
theorem pyRound_intCast (n : Int) : pyRound ((n : ℚ)) = n := by
  unfold pyRound
  rw [Rat.num_intCast, Rat.den_intCast]
  simp

theorem qMul_divInt_hundred (a : Int) : qMul (Rat.divInt a 100) 100 = (a : ℚ) := by
  rw [qMul_eq, Rat.divInt_eq_div]
  push_cast
  rw [div_mul_cancel₀ _ (show (100 : ℚ) ≠ 0 by norm_num)]

theorem round2_divInt_fix (a : Int) : round2 (Rat.divInt a 100) = Rat.divInt a 100 := by
  unfold round2
  rw [qMul_divInt_hundred, pyRound_intCast]

theorem qAdd_divInt_hundred (a b : Int) :
    qAdd (Rat.divInt a 100) (Rat.divInt b 100) = Rat.divInt (a + b) 100 := by
  rw [qAdd_eq, Rat.divInt_eq_div, Rat.divInt_eq_div, Rat.divInt_eq_div]
  push_cast
  rw [div_add_div_same]

/-- Rounding the sum of two already-2-decimal-rounded values changes
nothing. -/
theorem round2_sum_of_round2 (x y : ℚ) :
    round2 (qAdd (round2 x) (round2 y)) = qAdd (round2 x) (round2 y) := by
  have hx : round2 x = Rat.divInt (pyRound (qMul x 100)) 100 := rfl
  have hy : round2 y = Rat.divInt (pyRound (qMul y 100)) 100 := rfl
  rw [hx, hy, qAdd_divInt_hundred, round2_divInt_fix]

/-- Claim C6: `savings_finished` is the (2-decimal-rounded) sum of the parsed
costs, `savings_dnf` is the rounded mean × DNF count, `savings_combined`
equals `savings_finished + savings_dnf` exactly (the final rounding is the
identity on a sum of two 2-decimal values), and when no cost parses all
three stay zero with no division performed. -/
theorem C6_savings_spec (df : DF) (year : Int) (L : Option DF) (m : Metrics)
    (hm : computeMetrics df year L = Except.ok m) :
    m.savings_combined = m.savings_finished + m.savings_dnf ∧
    (cmCosts df year = [] →
      m.savings_finished = 0 ∧ m.savings_dnf = 0 ∧ m.savings_combined = 0) ∧
    (cmCosts df year ≠ [] →
      m.savings_finished = round2 ((cmCosts df year).sum) ∧
      m.savings_dnf = round2 ((cmCosts df year).sum / (cmCosts df year).length * m.dnfs)) := by
  cases hg : (df.isEmptyDF || !df.hasCol "status" || !df.hasCol "finished") with
  | true =>
    have hm0 : (Except.ok {} : Except PyErr Metrics) = Except.ok m := by
      rw [← hm, computeMetrics_guard_ok df year L hg]
    injection hm0 with hm0
    subst hm0
    refine ⟨by norm_num, fun _ => ⟨rfl, rfl, rfl⟩, fun hne => ?_⟩
    exfalso
    apply hne
    unfold cmCosts
    rw [guardFail_completed_nil df year hg]
    simp
  | false =>
    rw [computeMetrics_unfold df year L hg] at hm
    cases haud : cmAudSection df year with
    | error e => rw [haud] at hm; exact absurd hm (by simp)
    | ok af =>
      rw [haud] at hm
      injection hm with hm0
      subst hm0
      show (cmSavings df year (cmCheckoutsResolved df year L).2).2.2 =
          (cmSavings df year (cmCheckoutsResolved df year L).2).1 +
          (cmSavings df year (cmCheckoutsResolved df year L).2).2.1 ∧ _
      unfold cmSavings
      cases hc : (cmCosts df year).isEmpty with
      | true =>
        have hnil : cmCosts df year = [] := List.isEmpty_iff.mp hc
        simp only [hc, if_true]
        exact ⟨by norm_num, fun _ => by simp, fun hne => absurd hnil hne⟩
      | false =>
        have hnil : cmCosts df year ≠ [] := by
          intro h0
          rw [h0] at hc
          exact absurd hc (by simp)
        simp only [hc, Bool.false_eq_true, if_false]
        refine ⟨?_, fun h0 => absurd h0 hnil, fun _ => ⟨?_, ?_⟩⟩
        · show round2 (qAdd (round2 (qSum (cmCosts df year))) _) = _
          rw [round2_sum_of_round2, qAdd_eq]
        · show round2 (qSum (cmCosts df year)) = _
          rw [qSum_eq]
        · show round2 (qMul (qDiv (qSum (cmCosts df year)) _) _) = _
          rw [qSum_eq, qMul_eq, qDiv_eq]
          congr 1

/-- Witness for C6: on a concrete run with one 10-dollar completed book and
one DNF, combined = finished + dnf (20 = 10 + 10) and finished is the rounded
cost sum. -/
theorem C6_savings_spec_witness :
    computeMetrics dfCostW 2025 (some loansTwo) = Except.ok mCostW ∧
    mCostW.savings_combined = mCostW.savings_finished + mCostW.savings_dnf ∧
    mCostW.savings_finished = round2 ((cmCosts dfCostW 2025).sum) := by
  have h : computeMetrics dfCostW 2025 (some loansTwo) = Except.ok mCostW := by decide
  have hs := C6_savings_spec dfCostW 2025 (some loansTwo) mCostW h
  exact ⟨h, hs.1, (hs.2.2 (by decide)).1⟩

/-! ### DNF rule (C3) -/
theorem dedup_filter_length_sdiff (l1 l2 : List String) :
    (l1.dedup.filter (fun t => !l2.contains t)).length =
      (l1.toFinset \ l2.toFinset).card := by
  have hnd : (l1.dedup.filter (fun t => !l2.contains t)).Nodup :=
    l1.nodup_dedup.filter _
  rw [← List.toFinset_card_of_nodup hnd]
  congr 1
  ext x
  simp only [List.mem_toFinset, List.mem_filter, List.mem_dedup, Finset.mem_sdiff,
    Bool.not_eq_true']
  constructor
  · rintro ⟨hx, hc⟩
    refine ⟨hx, fun hm => ?_⟩
    rw [show l2.contains x = List.elem x l2 from rfl, List.elem_eq_true_of_mem hm] at hc
    exact absurd hc (by simp)
  · rintro ⟨hx, hnm⟩
    refine ⟨hx, ?_⟩
    cases hcc : l2.contains x with
    | false => rfl
    | true => exact absurd (List.elem_iff.mp hcc) hnm

/-- With the needed columns present, the checkout block succeeds and returns
the dedup/filter counts (the empty-`borrows_year` early return agrees with
them). -/
theorem cmCheckouts_ok (df : DF) (year : Int) (L : DF)
    (hts : (normalizeCols L).hasCol "timestamp" = true)
    (hact : (normalizeCols L).hasCol "activity" = true)
    (htitle : (normalizeCols L).hasCol "title" = true)
    (hname : df.hasCol "name" = true) :
    cmCheckouts df year (some L) = Except.ok
      ((cmCheckoutCanons (normalizeCols L) year).dedup.length,
       ((cmCheckoutCanons (normalizeCols L) year).dedup.filter
         (fun t => !(cmCompletedCanons df year).contains t)).length) := by
  unfold cmCheckouts
  simp only [hts, hact, htitle, hname, Bool.not_true, Bool.false_eq_true, if_false]
  cases hbe : (cmBorrowsYear (normalizeCols L) year).isEmpty with
  | true =>
    have hnil : cmBorrowsYear (normalizeCols L) year = [] := List.isEmpty_iff.mp hbe
    simp only [if_true]
    unfold cmCheckoutCanons
    rw [hnil]
    rfl
  | false =>
    simp only [Bool.false_eq_true, if_false]

/-- The internal year-borrow canon list seen as a set is the extensional
checkout-title set. -/
theorem checkoutCanons_toFinset (L : DF) (year : Int) :
    (cmCheckoutCanons (normalizeCols L) year).toFinset = checkoutTitleSet L year := by
  unfold cmCheckoutCanons cmBorrowsYear checkoutTitleSet
  congr 2
  rw [List.filter_filter]
  apply List.filter_congr
  intro e _
  cases hc : cellTs ((normalizeCols L).cell e "timestamp") with
  | none => simp [hc]
  | some t =>
    simp only [hc, Option.map_some, Option.isSome_some, Bool.and_true]
    rw [Bool.and_comm]

/-- The internal completed canon list seen as a set is the extensional
completed-title set. -/
theorem completedCanons_toFinset (df : DF) (year : Int) :
    (cmCompletedCanons df year).toFinset = completedTitleSet df year := by
  unfold cmCompletedCanons cmCompleted cmDfYear completedTitleSet
  rw [List.filter_filter]

/-- Claim C3: with the loans columns present, a checkout of local-time year
`Y` counts toward `dnfs` exactly when its canonical title is absent from the
canonical titles completed in year `Y`: `dnfs` is the cardinality of the
set difference.  The completed set only contains year-`Y` finishes, so a
title checked out in `Y` and finished in `Y + 1` stays a DNF for `Y`. -/
theorem C3_dnf_asymmetric (df : DF) (year : Int) (L : DF) (m : Metrics)
    (hg : (df.isEmptyDF || !df.hasCol "status" || !df.hasCol "finished") = false)
    (hts : (normalizeCols L).hasCol "timestamp" = true)
    (hact : (normalizeCols L).hasCol "activity" = true)
    (htitle : (normalizeCols L).hasCol "title" = true)
    (hname : df.hasCol "name" = true)
    (hm : computeMetrics df year (some L) = Except.ok m) :
    m.dnfs = (checkoutTitleSet L year \ completedTitleSet df year).card := by
  rw [computeMetrics_unfold df year (some L) hg] at hm
  cases haud : cmAudSection df year with
  | error e => rw [haud] at hm; exact absurd hm (by simp)
  | ok af =>
    rw [haud] at hm
    injection hm with hm0
    subst hm0
    show (cmCheckoutsResolved df year (some L)).2 = _
    unfold cmCheckoutsResolved
    rw [cmCheckouts_ok df year L hts hact htitle hname]
    show ((cmCheckoutCanons (normalizeCols L) year).dedup.filter
      (fun t => !(cmCompletedCanons df year).contains t)).length = _
    rw [dedup_filter_length_sdiff, checkoutCanons_toFinset, completedCanons_toFinset]

/-- Witness for C3: both 2025 checkouts are DNFs because the only completion
of "Mate" is dated 2026 — and it is not retroactively removed. -/
theorem C3_dnf_asymmetric_witness :
    computeMetrics dfFinishLater 2025 (some loansTwo) = Except.ok mFinishLater ∧
    mFinishLater.dnfs =
      (checkoutTitleSet loansTwo 2025 \ completedTitleSet dfFinishLater 2025).card ∧
    mFinishLater.dnfs = 2 := by
  have h : computeMetrics dfFinishLater 2025 (some loansTwo) = Except.ok mFinishLater := by
    decide
  exact ⟨h, C3_dnf_asymmetric dfFinishLater 2025 loansTwo mFinishLater (by decide)
    (by decide) (by decide) (by decide) (by decide) h, rfl⟩

/-! ### Biggest month (C2) -/
theorem argmaxFirstQ_from {α : Type} (f : α → ℚ) (l : List α) (b : α) :
    ∃ x, l.foldl (fun acc x => match acc with
      | none => some x
      | some bb => if qLt (f bb) (f x) then some x else acc) (some b) = some x ∧
      (x = b ∨ x ∈ l) ∧ f b ≤ f x ∧ ∀ y ∈ l, f y ≤ f x := by
  induction l generalizing b with
  | nil => exact ⟨b, rfl, Or.inl rfl, le_refl _, by simp⟩
  | cons a t ih =>
    rw [List.foldl_cons]
    cases hq : qLt (f b) (f a) with
    | true =>
      have hba : f b ≤ f a := le_of_lt ((qLt_iff _ _).mp hq)
      simp only [hq, if_true]
      obtain ⟨x, hx, hmem, hle, hall⟩ := ih a
      refine ⟨x, hx, ?_, hba.trans hle, ?_⟩
      · rcases hmem with rfl | hmem
        · exact Or.inr (List.mem_cons_self _ _)
        · exact Or.inr (List.mem_cons_of_mem _ hmem)
      · intro y hy
        rcases List.mem_cons.mp hy with rfl | hy
        · exact hle
        · exact hall y hy
    | false =>
      have hab : f a ≤ f b := by
        have := (qLt_iff (f b) (f a)).not.mp (by simp [hq])
        exact le_of_not_lt this
      simp only [hq, Bool.false_eq_true, if_false]
      obtain ⟨x, hx, hmem, hle, hall⟩ := ih b
      refine ⟨x, hx, ?_, hle, ?_⟩
      · rcases hmem with rfl | hmem
        · exact Or.inl rfl
        · exact Or.inr (List.mem_cons_of_mem _ hmem)
      · intro y hy
        rcases List.mem_cons.mp hy with rfl | hy
        · exact hab.trans hle
        · exact hall y hy

theorem argmaxFirstQ_spec {α : Type} (f : α → ℚ) (l : List α) (hne : l ≠ []) :
    ∃ x, argmaxFirstQ f l = some x ∧ x ∈ l ∧ ∀ y ∈ l, f y ≤ f x := by
  cases l with
  | nil => exact absurd rfl hne
  | cons a t =>
    unfold argmaxFirstQ
    rw [List.foldl_cons]
    obtain ⟨x, hx, hmem, hle, hall⟩ := argmaxFirstQ_from f t a
    refine ⟨x, hx, ?_, ?_⟩
    · rcases hmem with rfl | hmem
      · exact List.mem_cons_self _ _
      · exact List.mem_cons_of_mem _ hmem
    · intro y hy
      rcases List.mem_cons.mp hy with rfl | hy
      · exact hle
      · exact hall y hy

/-- A successful audiobook section with a nonempty subset carries the
`cmBiggest` pair. -/
theorem audSection_biggest (df : DF) (year : Int) (af : AudFields)
    (haud : cmAudSection df year = Except.ok af) (hne : cmAud df year ≠ []) :
    af.biggestMonth = (cmBiggest df year).1 ∧
    af.biggestMonthHours = (cmBiggest df year).2 := by
  unfold cmAudSection at haud
  have hbe : (cmAud df year).isEmpty = false := by
    cases h : (cmAud df year).isEmpty with
    | true => exact absurd (List.isEmpty_iff.mp h) hne
    | false => rfl
  cases h1 : df.hasCol "ab_hours" with
  | false => simp [hbe, h1] at haud
  | true =>
    cases h2 : df.hasCol "ab_minutes" with
    | false => simp [hbe, h1, h2] at haud
    | true =>
      cases h3 : df.hasCol "author" with
      | false => simp [hbe, h1, h2, h3] at haud
      | true =>
        simp only [hbe, h1, h2, h3, Bool.not_true, Bool.false_eq_true, if_false] at haud
        injection haud with he
        rw [← he]
        exact ⟨rfl, rfl⟩

/-- Counterexample for C2 as stated: on `dfLenOnly` the sole (March) record
has per-record duration 120 minutes under the rule used for the hours total
(`finished_audiobook_length_2025 = 2.0`), so the claimed biggest-month sum is
2.0 — but the code reports `biggest_month_hours = 0.0`, because the month
grouping sums only the `ab_hours`/`ab_minutes` fields. -/
theorem C2_biggest_month_counterexample :
    (computeMetrics dfLenOnly 2025 none).map
      (fun m => (m.finished_audiobook_length_2025, m.biggest_month, m.biggest_month_hours)) =
      Except.ok (2, some "March", 0) ∧ (0 : ℚ) ≠ 2 := by
  constructor
  · decide
  · decide

/-- Claim C2 (amended): `biggest_month` is a month name of the completed
audiobook subset (grouping finish dates by month name) whose monthly sum is
maximal, and `biggest_month_hours` is that maximal sum rounded to one
decimal — where the monthly sum is `Σ ab_hours + (Σ ab_minutes)/60` over the
month's records, not the per-record duration rule used for the audiobook
hours total. -/
theorem C2_biggest_month_amended (df : DF) (year : Int) (L : Option DF) (m : Metrics)
    (hm : computeMetrics df year L = Except.ok m) (hne : cmAud df year ≠ []) :
    ∃ mn, m.biggest_month = some mn ∧
      mn ∈ (cmAud df year).map (cmMonthName df) ∧
      (∀ mn2 ∈ (cmAud df year).map (cmMonthName df),
        cmMonthHours df year mn2 ≤ cmMonthHours df year mn) ∧
      m.biggest_month_hours = round1 (cmMonthHours df year mn) ∧
      cmMonthHours df year mn =
        (((cmAud df year).filter (fun r => cmMonthName df r == mn)).map (cmAbH df)).sum +
        (((cmAud df year).filter (fun r => cmMonthName df r == mn)).map (cmAbM df)).sum / 60 := by
  have hg : (df.isEmptyDF || !df.hasCol "status" || !df.hasCol "finished") = false := by
    cases hg0 : (df.isEmptyDF || !df.hasCol "status" || !df.hasCol "finished") with
    | false => rfl
    | true =>
      exfalso
      apply hne
      unfold cmAud
      rw [guardFail_completed_nil df year hg0]
      cases df.hasCol "format" <;> simp
  rw [computeMetrics_unfold df year L hg] at hm
  cases haud : cmAudSection df year with
  | error e => rw [haud] at hm; exact absurd hm (by simp)
  | ok af =>
    rw [haud] at hm
    injection hm with hm0
    subst hm0
    obtain ⟨hbm, hbmh⟩ := audSection_biggest df year af haud hne
    have hkeysne : cmMonthKeys df year ≠ [] := by
      intro h0
      obtain ⟨r, hr⟩ := List.exists_mem_of_ne_nil _ hne
      have hmem : cmMonthName df r ∈ cmMonthKeys df year := by
        unfold cmMonthKeys
        rw [List.mem_insertionSort, List.mem_dedup]
        exact List.mem_map_of_mem _ hr
      rw [h0] at hmem
      exact absurd hmem (List.not_mem_nil _)
    obtain ⟨mn, hmn, hmem, hmax⟩ :=
      argmaxFirstQ_spec (cmMonthHours df year) (cmMonthKeys df year) hkeysne
    refine ⟨mn, ?_, ?_, ?_, ?_, ?_⟩
    · show af.biggestMonth = some mn
      rw [hbm]
      unfold cmBiggest
      rw [hmn]
    · unfold cmMonthKeys at hmem
      rw [List.mem_insertionSort, List.mem_dedup] at hmem
      exact hmem
    · intro mn2 hmn2
      apply hmax
      unfold cmMonthKeys
      rw [List.mem_insertionSort, List.mem_dedup]
      exact hmn2
    · show af.biggestMonthHours = _
      rw [hbmh]
      unfold cmBiggest
      rw [hmn]
    · unfold cmMonthHours
      rw [qAdd_eq, qDiv_eq, qSum_eq, qSum_eq]

/-- Witness for the amended C2 at `dfLenOnly`: the month is March, every
month's sum is bounded by March's, and the reported hours are the rounded
March sum. -/
theorem C2_biggest_month_amended_witness :
    computeMetrics dfLenOnly 2025 none = Except.ok mLenOnly ∧
    ∃ mn, mLenOnly.biggest_month = some mn ∧
      mn ∈ (cmAud dfLenOnly 2025).map (cmMonthName dfLenOnly) ∧
      (∀ mn2 ∈ (cmAud dfLenOnly 2025).map (cmMonthName dfLenOnly),
        cmMonthHours dfLenOnly 2025 mn2 ≤ cmMonthHours dfLenOnly 2025 mn) ∧
      mLenOnly.biggest_month_hours = round1 (cmMonthHours dfLenOnly 2025 mn) ∧
      cmMonthHours dfLenOnly 2025 mn =
        (((cmAud dfLenOnly 2025).filter (fun r => cmMonthName dfLenOnly r == mn)).map
          (cmAbH dfLenOnly)).sum +
        (((cmAud dfLenOnly 2025).filter (fun r => cmMonthName dfLenOnly r == mn)).map
          (cmAbM dfLenOnly)).sum / 60 := by
  have h : computeMetrics dfLenOnly 2025 none = Except.ok mLenOnly := by decide
  exact ⟨h, C2_biggest_month_amended dfLenOnly 2025 none mLenOnly h (by decide)⟩

/-! ### Fastest reads (C4) -/
theorem argmaxFirst_from {α : Type} (f : α → Int) (l : List α) (b : α) :
    ∃ x, l.foldl (fun acc x => match acc with
      | none => some x
      | some bb => if f bb < f x then some x else acc) (some b) = some x ∧
      (x = b ∨ x ∈ l) ∧ f b ≤ f x ∧ ∀ y ∈ l, f y ≤ f x := by
  induction l generalizing b with
  | nil => exact ⟨b, rfl, Or.inl rfl, le_refl _, by simp⟩
  | cons a t ih =>
    rw [List.foldl_cons]
    show ∃ x, t.foldl (fun acc x => match acc with
      | none => some x
      | some bb => if f bb < f x then some x else acc)
      (if f b < f a then some a else some b) = some x ∧
      (x = b ∨ x ∈ a :: t) ∧ f b ≤ f x ∧ ∀ y ∈ a :: t, f y ≤ f x
    by_cases hq : f b < f a
    · rw [if_pos hq]
      obtain ⟨x, hx, hmem, hle, hall⟩ := ih a
      refine ⟨x, hx, ?_, (le_of_lt hq).trans hle, ?_⟩
      · rcases hmem with rfl | hm
        · exact Or.inr (List.mem_cons_self _ _)
        · exact Or.inr (List.mem_cons_of_mem _ hm)
      · intro y hy
        rcases List.mem_cons.mp hy with rfl | hy
        · exact hle
        · exact hall y hy
    · rw [if_neg hq]
      obtain ⟨x, hx, hmem, hle, hall⟩ := ih b
      refine ⟨x, hx, ?_, hle, ?_⟩
      · rcases hmem with rfl | hm
        · exact Or.inl rfl
        · exact Or.inr (List.mem_cons_of_mem _ hm)
      · intro y hy
        rcases List.mem_cons.mp hy with rfl | hy
        · exact (le_of_not_lt hq).trans hle
        · exact hall y hy

theorem argmaxFirst_some {α : Type} (f : α → Int) (l : List α) (x : α)
    (h : argmaxFirst f l = some x) : x ∈ l ∧ ∀ y ∈ l, f y ≤ f x := by
  cases l with
  | nil => simp [argmaxFirst] at h
  | cons a t =>
    obtain ⟨x', hx', hmem, hle, hall⟩ := argmaxFirst_from f t a
    have e : t.foldl (fun acc x => match acc with
      | none => some x
      | some bb => if f bb < f x then some x else acc) (some a) = some x := h
    rw [hx'] at e
    injection e with e2
    subst e2
    constructor
    · rcases hmem with rfl | hm
      · exact List.mem_cons_self _ _
      · exact List.mem_cons_of_mem _ hm
    · intro y hy
      rcases List.mem_cons.mp hy with rfl | hy
      · exact hle
      · exact hall y hy

/-- Membership in the title join: exactly the pairs of a kept completed read
row and a borrow event with the same canonical title. -/
theorem rsMerged_mem_iff (reads : DF) (cc : String) (year : Int)
    (borrows : List BorrowEv) (x : MergedRow) :
    x ∈ rsMerged reads cc year borrows ↔
    ∃ r ∈ rsPageRows reads cc year, ∃ b ∈ borrows,
      b.normTitle = canonCell (reads.cell r "name") ∧
      x = { name := reads.cell r "name",
            author := if reads.hasCol "author" then reads.cell r "author" else Cell.str "",
            normTitle := canonCell (reads.cell r "name"),
            created := (parseCreatedCell (reads.cell r cc)).getD 0,
            library := b.library, borrowed := b.borrowed } := by
  unfold rsMerged
  rw [List.mem_flatMap]
  constructor
  · rintro ⟨r, hr, hx⟩
    simp only [List.mem_filterMap] at hx
    obtain ⟨b, hb, hbx⟩ := hx
    by_cases hc : b.normTitle = canonCell (reads.cell r "name")
    · rw [if_pos (beq_iff_eq.mpr hc)] at hbx
      injection hbx with he
      exact ⟨r, hr, b, hb, hc, he.symm⟩
    · rw [if_neg (fun hcc0 => hc (beq_iff_eq.mp hcc0))] at hbx
      exact absurd hbx (by simp)
  · rintro ⟨r, hr, b, hb, hc, rfl⟩
    refine ⟨r, hr, ?_⟩
    simp only [List.mem_filterMap]
    exact ⟨b, hb, by rw [if_pos (beq_iff_eq.mpr hc)]⟩

/-- A kept merged row decomposes into its read row and its borrow event, and
satisfies the `borrowed <= created` filter. -/
theorem rsKept_mem {reads : DF} {cc : String} {year : Int} {borrows : List BorrowEv}
    {x : MergedRow} (hx : x ∈ rsKept reads cc year borrows) :
    x.borrowed ≤ x.created ∧
    ∃ r ∈ rsPageRows reads cc year, ∃ b0 ∈ borrows,
      b0.normTitle = canonCell (reads.cell r "name") ∧
      x = { name := reads.cell r "name",
            author := if reads.hasCol "author" then reads.cell r "author" else Cell.str "",
            normTitle := canonCell (reads.cell r "name"),
            created := (parseCreatedCell (reads.cell r cc)).getD 0,
            library := b0.library, borrowed := b0.borrowed } := by
  unfold rsKept at hx
  rw [List.mem_filter] at hx
  exact ⟨of_decide_eq_true hx.2, (rsMerged_mem_iff _ _ _ _ _).mp hx.1⟩

/-- A row chosen by the per-group `idxmax` is a kept row and carries the
largest borrow timestamp among the kept rows of its (title, created) group. -/
theorem rsBest_mem {reads : DF} {cc : String} {year : Int} {borrows : List BorrowEv}
    {x : MergedRow} (hx : x ∈ rsBest reads cc year borrows) :
    x ∈ rsKept reads cc year borrows ∧
    ∀ y ∈ rsKept reads cc year borrows, y.normTitle = x.normTitle →
      y.created = x.created → y.borrowed ≤ x.borrowed := by
  unfold rsBest at hx
  simp only [List.mem_filterMap] at hx
  obtain ⟨k, hk, hak⟩ := hx
  obtain ⟨hmem, hall⟩ := argmaxFirst_some _ _ _ hak
  rw [List.mem_filter] at hmem
  have h1 := hmem.1
  rw [List.mem_insertionSort] at h1
  have hcond := hmem.2
  rw [Bool.and_eq_true, beq_iff_eq, beq_iff_eq] at hcond
  refine ⟨h1, ?_⟩
  intro y hy hyt hyc
  have hyfilter : y ∈ ((rsKept reads cc year borrows).insertionSort mergedRel).filter
      (fun z => z.normTitle == k.1 && z.created == k.2) := by
    rw [List.mem_filter, List.mem_insertionSort]
    refine ⟨hy, ?_⟩
    rw [Bool.and_eq_true, beq_iff_eq, beq_iff_eq]
    exact ⟨hyt.trans hcond.1, hyc.trans hcond.2⟩
  exact hall y hyfilter

theorem filterMap_keyOf_nodup {α β : Type} (g : α → Option β) (keyOf : β → α)
    (hg : ∀ a b, g a = some b → keyOf b = a) :
    ∀ l : List α, l.Nodup → ((l.filterMap g).map keyOf).Nodup := by
  intro l
  induction l with
  | nil => intro _; simp
  | cons a t ih =>
    intro hnd
    rw [List.nodup_cons] at hnd
    cases hga : g a with
    | none =>
      rw [List.filterMap_cons_none hga]
      exact ih hnd.2
    | some b =>
      rw [List.filterMap_cons_some hga, List.map_cons, List.nodup_cons]
      refine ⟨?_, ih hnd.2⟩
      intro hmem
      obtain ⟨b', hb', he⟩ := List.mem_map.mp hmem
      obtain ⟨a', ha', hga'⟩ := List.mem_filterMap.mp hb'
      have ha : a' = a := by rw [← hg a' b' hga', he, hg a b hga]
      exact hnd.1 (ha ▸ ha')

/-- The chosen rows carry pairwise distinct (canonical title, created) keys:
one output row per group. -/
theorem rsBest_key_nodup (reads : DF) (cc : String) (year : Int)
    (borrows : List BorrowEv) :
    ((rsBest reads cc year borrows).map (fun x => (x.normTitle, x.created))).Nodup := by
  unfold rsBest
  refine filterMap_keyOf_nodup _ _ ?_ _ ?_
  · intro k xx hk
    obtain ⟨hmem, _⟩ := argmaxFirst_some _ _ _ hk
    rw [List.mem_filter] at hmem
    have h2 := hmem.2
    rw [Bool.and_eq_true, beq_iff_eq, beq_iff_eq] at h2
    show (xx.normTitle, xx.created) = k
    rw [h2.1, h2.2]
  · exact ((List.perm_insertionSort keyRel _).nodup_iff).mpr (List.nodup_dedup _)

/-- The nil-output case of the fastest-read specification. -/
theorem speedsNilCase (L : DF) (out : List SpeedRow) (e : ([] : List SpeedRow) = out) :
    (∀ row ∈ out,
        row.borrowed ≤ row.created ∧
        row.hours = ((row.created - row.borrowed : Int) : ℚ) / 3600 ∧
        ∀ b ∈ rsBorrows (normalizeCols L), b.normTitle = canonCell row.title →
          b.borrowed ≤ row.created → b.borrowed ≤ row.borrowed) ∧
    List.Sorted (· ≤ ·) (out.map SpeedRow.hours) ∧
    (out.map (fun row => (canonCell row.title, row.created))).Nodup := by
  subst e
  exact ⟨by simp, by simp, by simp⟩

/-- Claim C4: every fastest-read output row pairs a checkout not after its
finish, its elapsed hours are `(created - borrowed) / 3600` seconds, the
paired checkout is the latest borrow/checkout event of the same canonical
title not after the finish, rows are sorted ascending by elapsed hours, and
there is at most one row per (canonical title, finish) pair. -/
theorem C4_read_speeds_spec (L reads : DF) (year : Int) (out : List SpeedRow)
    (h : computeReadSpeeds (some L) reads year = Except.ok out) :
    (∀ row ∈ out,
        row.borrowed ≤ row.created ∧
        row.hours = ((row.created - row.borrowed : Int) : ℚ) / 3600 ∧
        ∀ b ∈ rsBorrows (normalizeCols L), b.normTitle = canonCell row.title →
          b.borrowed ≤ row.created → b.borrowed ≤ row.borrowed) ∧
    List.Sorted (· ≤ ·) (out.map SpeedRow.hours) ∧
    (out.map (fun row => (canonCell row.title, row.created))).Nodup := by
  simp only [computeReadSpeeds] at h
  split at h
  · injection h with e
    exact speedsNilCase L out e
  · split at h
    · injection h with e
      exact speedsNilCase L out e
    · split at h
      · injection h with e
        exact speedsNilCase L out e
      · rename_i cc heq
        split at h
        · injection h with e
          exact speedsNilCase L out e
        · split at h
          · injection h with e
            exact speedsNilCase L out e
          · split at h
            · injection h with e
              exact speedsNilCase L out e
            · split at h
              · exact Except.noConfusion h
              · split at h
                · exact Except.noConfusion h
                · split at h
                  · injection h with e
                    exact speedsNilCase L out e
                  · split at h
                    · injection h with e
                      exact speedsNilCase L out e
                    · injection h with e
                      subst e
                      refine ⟨?_, ?_, ?_⟩
                      · intro row hrow
                        rw [List.mem_insertionSort] at hrow
                        obtain ⟨x, hx, rfl⟩ := List.mem_map.mp hrow
                        obtain ⟨hxk, hxmax⟩ := rsBest_mem hx
                        obtain ⟨hble, r, hr, b0, hb0, hb0t, hxe⟩ := rsKept_mem hxk
                        refine ⟨hble, ?_, ?_⟩
                        · show qDiv ((x.created - x.borrowed : Int) : ℚ) 3600 = _
                          rw [qDiv_eq]
                          rfl
                        intro b hb hbt hb2
                        have hbt' : b.normTitle = canonCell (reads.cell r "name") := by
                          rw [hbt]
                          show canonCell x.name = _
                          rw [hxe]
                        have hy : ({ x with library := b.library, borrowed := b.borrowed } :
                            MergedRow) ∈ rsKept reads cc year (rsBorrows (normalizeCols L)) := by
                          unfold rsKept
                          rw [List.mem_filter]
                          refine ⟨(rsMerged_mem_iff _ _ _ _ _).mpr
                            ⟨r, hr, b, hb, hbt', by rw [hxe]⟩, ?_⟩
                          exact decide_eq_true (show b.borrowed ≤ x.created from hb2)
                        exact hxmax _ hy rfl rfl
                      · have hs := List.sorted_insertionSort speedRel
                          ((rsBest reads cc year (rsBorrows (normalizeCols L))).map speedOf)
                        exact List.Pairwise.map SpeedRow.hours
                          (fun a b hab => (qLe_iff _ _).mp hab) hs
                      · have hperm := (List.perm_insertionSort speedRel
                          ((rsBest reads cc year (rsBorrows (normalizeCols L))).map
                            speedOf)).map
                          (fun row => (canonCell row.title, row.created))
                        rw [hperm.nodup_iff, List.map_map]
                        have hcongr : ∀ x ∈ rsBest reads cc year (rsBorrows (normalizeCols L)),
                            ((fun row => (canonCell row.title, row.created)) ∘ speedOf) x =
                            (x.normTitle, x.created) := by
                          intro x hx
                          obtain ⟨hxk, _⟩ := rsBest_mem hx
                          obtain ⟨_, r, hr, b0, hb0, hb0t, hxe⟩ := rsKept_mem hxk
                          show (canonCell x.name, x.created) = (x.normTitle, x.created)
                          rw [hxe]
                        rw [List.map_congr_left hcongr]
                        exact rsBest_key_nodup reads cc year (rsBorrows (normalizeCols L))

/-- Witness for C4 on `readsC4` / `loansC4`. -/
theorem C4_read_speeds_spec_witness :
    computeReadSpeeds (some loansC4) readsC4 2025 = Except.ok outC4 ∧
    ((∀ row ∈ outC4,
        row.borrowed ≤ row.created ∧
        row.hours = ((row.created - row.borrowed : Int) : ℚ) / 3600 ∧
        ∀ b ∈ rsBorrows (normalizeCols loansC4), b.normTitle = canonCell row.title →
          b.borrowed ≤ row.created → b.borrowed ≤ row.borrowed) ∧
      List.Sorted (· ≤ ·) (outC4.map SpeedRow.hours) ∧
      (outC4.map (fun row => (canonCell row.title, row.created))).Nodup) := by
  have h : computeReadSpeeds (some loansC4) readsC4 2025 = Except.ok outC4 := by decide
  exact ⟨h, C4_read_speeds_spec loansC4 readsC4 2025 outC4 h⟩

theorem tokensAux_nil (cur : List Char) :
    tokensAux cur [] = if cur.isEmpty then [] else [cur.reverse] := rfl

theorem tokensAux_cons (cur : List Char) (c : Char) (r : List Char) :
    tokensAux cur (c :: r) = if isWordChar c then tokensAux (c :: cur) r
      else if cur.isEmpty then tokensAux [] r else cur.reverse :: tokensAux [] r := rfl

theorem char_toNat_ofNat {n : ℕ} (h : n.isValidChar) : (Char.ofNat n).toNat = n := by
  rw [Char.ofNat, dif_pos h]
  rfl

theorem char_eq_of_toNat {a b : Char} (h : a.toNat = b.toNat) : a = b := by
  calc a = Char.ofNat a.toNat := (Char.ofNat_toNat a).symm
  _ = Char.ofNat b.toNat := by rw [h]
  _ = b := Char.ofNat_toNat b

theorem lowerChar_toNat (c : Char) : (lowerChar c).toNat =
    if 65 ≤ c.toNat ∧ c.toNat ≤ 90 then c.toNat + 32 else c.toNat := by
  unfold lowerChar
  split
  · next h => exact char_toNat_ofNat (Or.inl (by omega))
  · rfl

theorem upperChar_toNat (c : Char) : (upperChar c).toNat =
    if 97 ≤ c.toNat ∧ c.toNat ≤ 122 then c.toNat - 32 else c.toNat := by
  unfold upperChar
  split
  · next h => exact char_toNat_ofNat (Or.inl (by omega))
  · rfl

theorem lowerChar_idem (c : Char) : lowerChar (lowerChar c) = lowerChar c := by
  apply char_eq_of_toNat
  rw [lowerChar_toNat, lowerChar_toNat]
  split_ifs <;> omega

theorem lowerChar_upperChar (c : Char) : lowerChar (upperChar c) = lowerChar c := by
  apply char_eq_of_toNat
  rw [lowerChar_toNat, lowerChar_toNat, upperChar_toNat]
  split_ifs <;> omega

theorem lowerChar_eq_nl {c : Char} (h : lowerChar c = '\n') : c = '\n' := by
  apply char_eq_of_toNat
  have h2 : (lowerChar c).toNat = 10 := by rw [h]; rfl
  rw [lowerChar_toNat] at h2
  show c.toNat = 10
  split_ifs at h2 <;> omega

theorem not_word_of_space {c : Char} (h : isSpaceChar c = true) :
    isWordChar c = false := by
  simp only [isSpaceChar, Bool.or_eq_true, decide_eq_true_eq] at h
  rcases h with ((((rfl | rfl) | rfl) | rfl) | rfl) | rfl <;> decide

theorem noNl_iff (l : List Char) : noNl l = true ↔ '\n' ∉ l := by
  simp [noNl]

theorem noNl_mono {m l : List Char} (hsub : ∀ c ∈ m, c ∈ l)
    (h : noNl l = true) : noNl m = true := by
  rw [noNl_iff] at *
  exact fun hm => h (hsub _ hm)

theorem noNl_cons {c : Char} {r : List Char} (h : noNl (c :: r) = true) :
    c ≠ '\n' ∧ noNl r = true := by
  rw [noNl_iff] at h
  exact ⟨fun e => h (e ▸ List.mem_cons_self _ _),
    (noNl_iff r).mpr (fun hm => h (List.mem_cons_of_mem _ hm))⟩

theorem mem_dropTrailingWs {c : Char} : ∀ {l : List Char},
    c ∈ dropTrailingWs l → c ∈ l := by
  intro l
  induction l with
  | nil => intro h; exact absurd h (List.not_mem_nil _)
  | cons a t ih =>
    intro h
    unfold dropTrailingWs at h
    split at h
    · split at h
      · exact absurd h (List.not_mem_nil _)
      · rw [List.mem_singleton] at h
        exact h ▸ List.mem_cons_self _ _
    · rcases List.mem_cons.mp h with rfl | h2
      · exact List.mem_cons_self _ _
      · exact List.mem_cons_of_mem _ (ih h2)

theorem mem_pyStrip {c : Char} {l : List Char} (h : c ∈ pyStrip l) : c ∈ l :=
  (List.dropWhile_sublist isSpaceChar).subset (mem_dropTrailingWs h)

theorem mem_findClose {cl c : Char} : ∀ {l r : List Char},
    findClose cl l = some r → c ∈ r → c ∈ l := by
  intro l
  induction l with
  | nil => intro r h; simp [findClose] at h
  | cons a t ih =>
    intro r h hc
    simp only [findClose] at h
    split at h
    · cases h; exact List.mem_cons_of_mem _ hc
    · split at h
      · cases h
      · exact List.mem_cons_of_mem _ (ih h hc)

theorem mem_stripBracketsAux {c : Char} : ∀ (n : ℕ) {l : List Char},
    c ∈ stripBracketsAux n l → c ∈ l := by
  intro n
  induction n with
  | zero => intro l h; exact h
  | succ n ih =>
    intro l h
    cases l with
    | nil => exact h
    | cons a t =>
      unfold stripBracketsAux at h
      split at h
      · split at h
        · next hr2 => exact List.mem_cons_of_mem _ (mem_findClose hr2 (ih h))
        · rcases List.mem_cons.mp h with rfl | h2
          · exact List.mem_cons_self _ _
          · exact List.mem_cons_of_mem _ (ih h2)
      · split at h
        · split at h
          · next hr2 => exact List.mem_cons_of_mem _ (mem_findClose hr2 (ih h))
          · rcases List.mem_cons.mp h with rfl | h2
            · exact List.mem_cons_self _ _
            · exact List.mem_cons_of_mem _ (ih h2)
        · rcases List.mem_cons.mp h with rfl | h2
          · exact List.mem_cons_self _ _
          · exact List.mem_cons_of_mem _ (ih h2)

theorem mem_normDashes {c : Char} {l : List Char} (h : c ∈ normDashes l) :
    c ∈ l ∨ c = '-' := by
  obtain ⟨a, ha, he⟩ := List.mem_map.mp h
  by_cases hd : a = '—' ∨ a = '–'
  · right
    rw [← he, if_pos hd]
  · left
    rw [← he, if_neg hd]
    exact ha

theorem mem_punctSub {c : Char} {l : List Char} (h : c ∈ punctSub l) :
    c ∈ l ∨ c = ' ' := by
  obtain ⟨a, ha, he⟩ := List.mem_map.mp h
  by_cases hk : isWordChar a || isSpaceChar a
  · left
    rw [← he, if_pos hk]
    exact ha
  · right
    rw [← he, if_neg hk]

theorem mem_collapseWsAux {c : Char} : ∀ {l : List Char} {p : Bool},
    c ∈ collapseWsAux p l → (c ∈ l ∧ isSpaceChar c = false) ∨ c = ' ' := by
  intro l
  induction l with
  | nil => intro p h; exact absurd h (List.not_mem_nil _)
  | cons a t ih =>
    intro p h
    unfold collapseWsAux at h
    split at h
    · split at h
      · rcases ih h with ⟨h1, h2⟩ | h1
        · exact Or.inl ⟨List.mem_cons_of_mem _ h1, h2⟩
        · exact Or.inr h1
      · rcases List.mem_cons.mp h with rfl | h2
        · exact Or.inr rfl
        · rcases ih h2 with ⟨h1, h3⟩ | h1
          · exact Or.inl ⟨List.mem_cons_of_mem _ h1, h3⟩
          · exact Or.inr h1
    · next ha =>
      rcases List.mem_cons.mp h with rfl | h2
      · exact Or.inl ⟨List.mem_cons_self _ _, by simpa using ha⟩
      · rcases ih h2 with ⟨h1, h3⟩ | h1
        · exact Or.inl ⟨List.mem_cons_of_mem _ h1, h3⟩
        · exact Or.inr h1

theorem goodChar_cases {c : Char} (h : goodChar c = true) :
    (isWordChar c = true ∧ lowerChar c = c) ∨ c = ' ' := by
  unfold goodChar at h
  rw [Bool.or_eq_true, Bool.and_eq_true] at h
  rcases h with ⟨hw, hl⟩ | he
  · exact Or.inl ⟨hw, beq_iff_eq.mp hl⟩
  · exact Or.inr (beq_iff_eq.mp he)

theorem not_space_of_word {c : Char} (h : isWordChar c = true) :
    isSpaceChar c = false := by
  by_cases hs : isSpaceChar c = true
  · rw [not_word_of_space hs] at h
    exact absurd h (by simp)
  · exact Bool.not_eq_true _ ▸ eq_false_of_ne_true hs

theorem head?_mem {l : List Char} {c : Char} (h : l.head? = some c) : c ∈ l := by
  cases l with
  | nil => exact absurd h (by simp)
  | cons a t =>
    injection h with e
    exact e ▸ List.mem_cons_self _ _

theorem getLast?_mem : ∀ {l : List Char} {c : Char}, l.getLast? = some c → c ∈ l := by
  intro l
  induction l with
  | nil => intro c h; exact absurd h (by simp)
  | cons a t ih =>
    intro c h
    cases t with
    | nil =>
      injection h with e
      exact e ▸ List.mem_cons_self _ _
    | cons b t2 =>
      rw [List.getLast?_cons_cons] at h
      exact List.mem_cons_of_mem _ (ih h)

theorem head?_dropWhile_not : ∀ {l : List Char} {c : Char},
    (l.dropWhile isSpaceChar).head? = some c → isSpaceChar c = false := by
  intro l
  induction l with
  | nil => intro c h; exact absurd h (by simp)
  | cons a t ih =>
    intro c h
    by_cases ha : isSpaceChar a = true
    · rw [List.dropWhile_cons, if_pos ha] at h
      exact ih h
    · rw [List.dropWhile_cons, if_neg ha] at h
      injection h with e
      subst e
      exact Bool.not_eq_true _ ▸ eq_false_of_ne_true ha

theorem noDbl_tail {c : Char} {r : List Char} (h : noDbl (c :: r) = true) :
    noDbl r = true := by
  cases r with
  | nil => rfl
  | cons d t =>
    have h2 : (!(c == ' ' && d == ' ') && noDbl (d :: t)) = true := h
    rw [Bool.and_eq_true] at h2
    exact h2.2

theorem mem_rereadCutAux {c : Char} : ∀ {l : List Char} {w : Bool},
    c ∈ rereadCutAux w l → c ∈ l ∨ c = '\n' := by
  intro l
  induction l with
  | nil => intro w h; exact absurd h (List.not_mem_nil _)
  | cons a t ih =>
    intro w h
    unfold rereadCutAux at h
    split at h
    · unfold tailKeep at h
      split at h
      · exact absurd h (List.not_mem_nil _)
      · rw [List.mem_singleton] at h
        exact Or.inr h
    · rcases List.mem_cons.mp h with rfl | h2
      · exact Or.inl (List.mem_cons_self _ _)
      · rcases ih h2 with h3 | h3
        · exact Or.inl (List.mem_cons_of_mem _ h3)
        · exact Or.inr h3

/-- Punctuation substitution keeps a character (with its class condition) or
emits a space. -/
theorem mem_punctSub' {c : Char} {l : List Char} (h : c ∈ punctSub l) :
    (c ∈ l ∧ (isWordChar c || isSpaceChar c) = true) ∨ c = ' ' := by
  obtain ⟨a, ha, he⟩ := List.mem_map.mp h
  by_cases hk : (isWordChar a || isSpaceChar a) = true
  · left
    rw [← he, if_pos hk]
    exact ⟨ha, hk⟩
  · right
    rw [← he, if_neg hk]

theorem map_fix {f : Char → Char} {l : List Char} (h : ∀ c ∈ l, f c = c) :
    l.map f = l :=
  (List.map_congr_left h).trans (List.map_id l)

theorem dropWhile_fix {l : List Char}
    (h : ∀ c, l.head? = some c → isSpaceChar c = false) :
    l.dropWhile isSpaceChar = l := by
  cases l with
  | nil => rfl
  | cons c r => rw [List.dropWhile_cons, if_neg (by simp [h c rfl])]

theorem dropTrailingWs_fix : ∀ {l : List Char},
    (∀ z, l.getLast? = some z → isSpaceChar z = false) → dropTrailingWs l = l := by
  intro l
  induction l with
  | nil => intro _; rfl
  | cons c r ih =>
    intro h
    cases r with
    | nil =>
      show (if isSpaceChar c then [] else [c]) = [c]
      rw [if_neg (by simp [h c (by simp)])]
    | cons d r2 =>
      have hr : dropTrailingWs (d :: r2) = d :: r2 :=
        ih (fun z hz => h z (by rw [List.getLast?_cons_cons]; exact hz))
      show (match dropTrailingWs (d :: r2) with
        | [] => if isSpaceChar c then [] else [c]
        | r2 => c :: r2) = c :: d :: r2
      rw [hr]

theorem pyStrip_fix {l : List Char} (hall : ∀ c ∈ l, goodChar c = true)
    (hh : l.head? ≠ some ' ') (hl : l.getLast? ≠ some ' ') : pyStrip l = l := by
  have h1 : l.dropWhile isSpaceChar = l := dropWhile_fix (fun c hc => by
    rcases goodChar_cases (hall c (head?_mem hc)) with ⟨hw, _⟩ | he
    · exact not_space_of_word hw
    · subst he
      exact absurd hc hh)
  have h2 : dropTrailingWs l = l := dropTrailingWs_fix (fun z hz => by
    rcases goodChar_cases (hall z (getLast?_mem hz)) with ⟨hw, _⟩ | he
    · exact not_space_of_word hw
    · subst he
      exact absurd hz hl)
  unfold pyStrip
  rw [h1, h2]

theorem stripBracketsAux_fix : ∀ (n : ℕ) {l : List Char}, '[' ∉ l → '(' ∉ l →
    stripBracketsAux n l = l := by
  intro n
  induction n with
  | zero => intro l _ _; rfl
  | succ n ih =>
    intro l h1 h2
    cases l with
    | nil => rfl
    | cons c r =>
      have hc1 : ¬(c = '[') := fun e => h1 (e ▸ List.mem_cons_self _ _)
      have hc2 : ¬(c = '(') := fun e => h2 (e ▸ List.mem_cons_self _ _)
      simp only [stripBracketsAux]
      rw [if_neg hc1, if_neg hc2]
      rw [ih (fun hm => h1 (List.mem_cons_of_mem _ hm))
        (fun hm => h2 (List.mem_cons_of_mem _ hm))]

theorem rereadCutAux_fix : ∀ {l : List Char} {w : Bool}, hasMatch w l = false →
    rereadCutAux w l = l := by
  intro l
  induction l with
  | nil => intro w _; rfl
  | cons c r ih =>
    intro w h
    have h' : (rereadCond w (c :: r) || hasMatch (isWordChar c) r) = false := h
    rw [Bool.or_eq_false_iff] at h'
    show (if rereadCond w (c :: r) = true then tailKeep ((c :: r).drop 6)
      else c :: rereadCutAux (isWordChar c) r) = c :: r
    rw [if_neg (by simp [h'.1]), ih h'.2]

theorem collapseWsAux_fix : ∀ {l : List Char} {p : Bool},
    (∀ c ∈ l, goodChar c = true) → noDbl l = true →
    (p = true → l.head? ≠ some ' ') → collapseWsAux p l = l := by
  intro l
  induction l with
  | nil => intro p _ _ _; rfl
  | cons c r ih =>
    intro p hall hnd hp
    show (if isSpaceChar c then
        (if p then collapseWsAux true r else ' ' :: collapseWsAux true r)
      else c :: collapseWsAux false r) = c :: r
    by_cases hsp : isSpaceChar c = true
    · have hce : c = ' ' := by
        rcases goodChar_cases (hall c (List.mem_cons_self _ _)) with ⟨hw, _⟩ | he
        · rw [not_space_of_word hw] at hsp
          exact absurd hsp (by simp)
        · exact he
      subst hce
      cases p with
      | true => exact absurd rfl (hp rfl)
      | false =>
        rw [if_pos hsp, if_neg (by simp)]
        congr 1
        apply ih (fun x hx => hall x (List.mem_cons_of_mem _ hx)) (noDbl_tail hnd)
        intro _
        cases r with
        | nil => simp
        | cons d t =>
          have h2 : (!(' ' == ' ' && d == ' ') && noDbl (d :: t)) = true := hnd
          rw [Bool.and_eq_true] at h2
          intro he
          injection he with hd
          subst hd
          exact absurd h2.1 (by simp)
    · rw [if_neg hsp]
      congr 1
      exact ih (fun x hx => hall x (List.mem_cons_of_mem _ hx)) (noDbl_tail hnd)
        (fun hf => absurd hf (by simp))

theorem noNl_rereadCutAux : ∀ {l : List Char} {w : Bool}, noNl l = true →
    noNl (rereadCutAux w l) = true := by
  intro l
  induction l with
  | nil => intro w _; rfl
  | cons a t ih =>
    intro w h
    obtain ⟨ha, ht⟩ := noNl_cons h
    unfold rereadCutAux
    split
    · have hdrop : noNl ((a :: t).drop 6) = true :=
        noNl_mono (fun c hc => List.drop_subset _ _ hc) h
      rw [tailKeep, if_pos hdrop]
      rfl
    · rw [noNl_iff]
      intro hmem
      rcases List.mem_cons.mp hmem with e | hmem2
      · exact ha e.symm
      · exact absurd hmem2 ((noNl_iff _).mp (ih ht))

/-- With a nonempty run in progress, the next token is the run completed by
the leading word characters. -/
theorem tokensAux_ne : ∀ (l : List Char) (cur : List Char), cur ≠ [] →
    tokensAux cur l =
      (cur.reverse ++ l.takeWhile isWordChar) :: tokensAux [] (l.dropWhile isWordChar) := by
  intro l
  induction l with
  | nil =>
    intro cur hcur
    show (if cur.isEmpty then [] else [cur.reverse]) = _
    rw [if_neg (by simpa using hcur)]
    simp [tokensAux]
  | cons c r ih =>
    intro cur hcur
    show (if isWordChar c then tokensAux (c :: cur) r
      else if cur.isEmpty then tokensAux [] r else cur.reverse :: tokensAux [] r) = _
    by_cases hc : isWordChar c = true
    · rw [if_pos hc, ih (c :: cur) (by simp)]
      rw [List.takeWhile_cons, if_pos hc, List.dropWhile_cons, if_pos hc]
      simp
    · rw [if_neg hc, if_neg (by simpa using hcur)]
      rw [List.takeWhile_cons, if_neg hc, List.dropWhile_cons, if_neg hc, List.append_nil]
      congr 1
      show tokensAux [] r = tokensAux [] (c :: r)
      simp [tokensAux, hc]

/-- Tokens are invariant under maps that fix word characters and preserve
word-character status. -/
theorem tokensAux_map (g : Char → Char) (h1 : ∀ c, isWordChar c = true → g c = c)
    (h2 : ∀ c, isWordChar (g c) = isWordChar c) :
    ∀ (l : List Char) (cur : List Char), tokensAux cur (l.map g) = tokensAux cur l := by
  intro l
  induction l with
  | nil => intro cur; rfl
  | cons c r ih =>
    intro cur
    rw [List.map_cons]
    simp only [tokensAux]
    rw [h2 c]
    by_cases hc : isWordChar c = true
    · rw [if_pos hc, if_pos hc, h1 c hc, ih]
    · rw [if_neg hc, if_neg hc, ih]

/-- Tokens are invariant under whitespace collapsing (provided the run in
progress is empty whenever the previous character was a space). -/
theorem tokensAux_collapse : ∀ (l : List Char) (p : Bool) (cur : List Char),
    (p = true → cur = []) → tokensAux cur (collapseWsAux p l) = tokensAux cur l := by
  intro l
  induction l with
  | nil => intro p cur _; rfl
  | cons c r ih =>
    intro p cur hpc
    show tokensAux cur (collapseWsAux p (c :: r)) = tokensAux cur (c :: r)
    simp only [collapseWsAux]
    by_cases hsp : isSpaceChar c = true
    · have hw : isWordChar c = false := not_word_of_space hsp
      rw [if_pos hsp]
      cases p with
      | false =>
        rw [if_neg (by simp)]
        simp only [tokensAux]
        rw [if_neg (by decide)]
        simp only [hw, Bool.false_eq_true, if_false]
        rw [ih true [] (fun _ => rfl)]
      | true =>
        rw [if_pos rfl]
        have hcur := hpc rfl
        subst hcur
        rw [ih true [] (fun _ => rfl)]
        show tokensAux [] r = tokensAux [] (c :: r)
        simp [tokensAux, hw]
    · rw [if_neg hsp]
      simp only [tokensAux]
      by_cases hw : isWordChar c = true
      · rw [if_pos hw, if_pos hw]
        exact ih false (c :: cur) (by simp)
      · rw [if_neg hw, if_neg hw, ih false [] (by simp)]

/-- Tokens are invariant under dropping leading whitespace. -/
theorem tokensAux_dropLeading : ∀ (l : List Char),
    tokensAux [] (l.dropWhile isSpaceChar) = tokensAux [] l := by
  intro l
  induction l with
  | nil => rfl
  | cons c r ih =>
    cases hsp : isSpaceChar c
    · rw [List.dropWhile_cons, if_neg (by simp [hsp])]
    · rw [List.dropWhile_cons, if_pos hsp, ih]
      show tokensAux [] r = tokensAux [] (c :: r)
      simp [tokensAux, not_word_of_space hsp]

/-- Tokens are invariant under dropping trailing whitespace. -/
theorem tokensAux_dropTrailing : ∀ (l : List Char) (cur : List Char),
    tokensAux cur (dropTrailingWs l) = tokensAux cur l := by
  intro l
  induction l with
  | nil => intro cur; rfl
  | cons c r ih =>
    intro cur
    cases hdr : dropTrailingWs r with
    | nil =>
      have ihr : ∀ cur', tokensAux cur' r = tokensAux cur' ([] : List Char) := by
        intro cur'
        have h0 := ih cur'
        rw [hdr] at h0
        exact h0.symm
      have he : dropTrailingWs (c :: r) = if isSpaceChar c then [] else [c] := by
        show (match dropTrailingWs r with
          | [] => if isSpaceChar c then [] else [c]
          | r2 => c :: r2) = _
        rw [hdr]
      rw [he]
      by_cases hsp : isSpaceChar c = true
      · rw [if_pos hsp]
        have hw := not_word_of_space hsp
        rw [tokensAux_nil, tokensAux_cons]
        simp only [hw, Bool.false_eq_true, if_false]
        rw [ihr []]
        cases cur <;> simp [tokensAux_nil]
      · rw [if_neg hsp]
        rw [show ([c] : List Char) = c :: [] from rfl, tokensAux_cons, tokensAux_cons]
        by_cases hw : isWordChar c = true
        · rw [if_pos hw, if_pos hw, ihr (c :: cur)]
        · rw [if_neg hw, if_neg hw, ihr []]
    | cons d r2 =>
      have ihr : ∀ cur', tokensAux cur' (d :: r2) = tokensAux cur' r := by
        intro cur'
        have h0 := ih cur'
        rw [hdr] at h0
        exact h0
      have he : dropTrailingWs (c :: r) = c :: d :: r2 := by
        show (match dropTrailingWs r with
          | [] => if isSpaceChar c then [] else [c]
          | r2 => c :: r2) = _
        rw [hdr]
      rw [he, tokensAux_cons]
      conv_rhs => rw [tokensAux_cons]
      by_cases hw : isWordChar c = true
      · rw [if_pos hw, if_pos hw, ihr (c :: cur)]
      · rw [if_neg hw, if_neg hw, ihr []]

/-- A word-prefix match with a boundary after it is exactly an equality of
the leading maximal word run. -/
theorem take_boundary_iff : ∀ (w : List Char), w.all isWordChar = true →
    ∀ l : List Char,
      (l.take w.length = w ∧ boundaryAfter (l.drop w.length) = true) ↔
        l.takeWhile isWordChar = w := by
  intro w
  induction w with
  | nil =>
    intro _ l
    cases l with
    | nil => simp [boundaryAfter]
    | cons c r =>
      simp only [List.length_nil, List.take_zero, List.drop_zero, List.takeWhile_cons,
        true_and]
      constructor
      · intro hb
        have hb2 : isWordChar c = false := by
          have := hb
          unfold boundaryAfter at this
          simpa using this
        rw [if_neg (by simp [hb2])]
      · intro ht
        by_cases hc : isWordChar c = true
        · rw [if_pos hc] at ht
          exact absurd ht (by simp)
        · unfold boundaryAfter
          simpa using hc
  | cons a w' ih =>
    intro hw l
    have ha : isWordChar a = true := by
      have := hw
      rw [List.all_cons, Bool.and_eq_true] at this
      exact this.1
    have hw' : w'.all isWordChar = true := by
      have := hw
      rw [List.all_cons, Bool.and_eq_true] at this
      exact this.2
    cases l with
    | nil =>
      constructor
      · rintro ⟨h1, _⟩
        exact absurd h1 (by simp)
      · intro h1
        exact absurd h1 (by simp)
    | cons c r =>
      simp only [List.length_cons, List.take_succ_cons, List.drop_succ_cons,
        List.takeWhile_cons]
      constructor
      · rintro ⟨h1, h2⟩
        injection h1 with e1 e2
        subst e1
        rw [if_pos ha]
        congr 1
        exact (ih hw' r).mp ⟨e2, h2⟩
      · intro ht
        by_cases hc : isWordChar c = true
        · rw [if_pos hc] at ht
          injection ht with e1 e2
          obtain ⟨h3, h4⟩ := (ih hw' r).mpr e2
          subst e1
          rw [h3]
          exact ⟨rfl, h4⟩
        · rw [if_neg hc] at ht
          exact absurd ht (by simp)

theorem rereadCond_true (l : List Char) : rereadCond true l = false := by
  simp [rereadCond]

/-- On newline-free input, the `\breread\b.*$` condition at the head is an
equality of the leading word run with "reread". -/
theorem rereadCond_false_iff {l : List Char} (h : noNl l = true) :
    rereadCond false l = true ↔ l.takeWhile isWordChar = rereadTok := by
  have hs : suffixOk (l.drop 6) = true := by
    unfold suffixOk
    rw [noNl_mono (fun c hc => List.drop_subset _ _ hc) h, Bool.true_or]
  unfold rereadCond
  rw [hs]
  simp only [Bool.not_false, Bool.true_and, Bool.and_true, Bool.and_eq_true, beq_iff_eq]
  exact take_boundary_iff rereadTok (by decide) l

theorem rereadCond_nonword {c : Char} {r : List Char} (hc : isWordChar c = false) :
    rereadCond false (c :: r) = false := by
  rw [Bool.eq_false_iff]
  intro hcond
  unfold rereadCond at hcond
  simp only [Bool.and_eq_true, beq_iff_eq] at hcond
  obtain ⟨⟨⟨_, htake⟩, _⟩, _⟩ := hcond
  have htake' : c :: r.take 5 = rereadTok := htake
  injection htake' with e1 _
  subst e1
  exact absurd hc (by decide)

/-- After a word character, a match can only start past the current word
run. -/
theorem hasMatch_true_eq (l : List Char) :
    hasMatch true l = hasMatch false (l.dropWhile isWordChar) := by
  induction l with
  | nil => rfl
  | cons c r ih =>
    show (rereadCond true (c :: r) || hasMatch (isWordChar c) r) = _
    rw [rereadCond_true, Bool.false_or]
    cases hc : isWordChar c
    · rw [List.dropWhile_cons, if_neg (by simp [hc])]
      show hasMatch false r = hasMatch false (c :: r)
      show hasMatch false r = (rereadCond false (c :: r) || hasMatch (isWordChar c) r)
      rw [rereadCond_nonword hc, Bool.false_or, hc]
    · rw [List.dropWhile_cons, if_pos hc]
      exact ih

/-- On newline-free input, `\breread\b.*$` matches somewhere iff "reread" is
one of the maximal word runs. -/
theorem hasMatch_iff_token : ∀ (n : ℕ) (l : List Char), l.length ≤ n → noNl l = true →
    (hasMatch false l = true ↔ rereadTok ∈ tokens l) := by
  intro n
  induction n with
  | zero =>
    intro l hl _
    have he : l = [] := List.eq_nil_of_length_eq_zero (Nat.le_zero.mp hl)
    subst he
    simp [hasMatch, tokens, tokensAux]
  | succ n ih =>
    intro l hl hnl
    cases l with
    | nil => simp [hasMatch, tokens, tokensAux]
    | cons c r =>
      obtain ⟨hc0, hr⟩ := noNl_cons hnl
      have hmm : hasMatch false (c :: r) =
        (rereadCond false (c :: r) || hasMatch (isWordChar c) r) := rfl
      cases hc : isWordChar c
      · rw [hmm, hc, rereadCond_nonword hc, Bool.false_or]
        have ht : tokens (c :: r) = tokens r := by
          show tokensAux [] (c :: r) = tokensAux [] r
          simp [tokensAux, hc]
        rw [ht]
        exact ih r (by simpa using Nat.le_of_succ_le_succ hl) hr
      · rw [hmm, hc, hasMatch_true_eq]
        have ht : tokens (c :: r) =
            (c :: r.takeWhile isWordChar) :: tokens (r.dropWhile isWordChar) := by
          show tokensAux [] (c :: r) = _
          rw [show tokensAux [] (c :: r) = tokensAux [c] r from by simp [tokensAux, hc]]
          rw [tokensAux_ne r [c] (by simp)]
          rfl
        rw [ht, List.mem_cons]
        have hlen : (r.dropWhile isWordChar).length ≤ n := by
          have h1 : r.length ≤ n := by simpa using Nat.le_of_succ_le_succ hl
          exact le_trans (List.Sublist.length_le (List.dropWhile_sublist isWordChar)) h1
        have hnl2 : noNl (r.dropWhile isWordChar) = true :=
          noNl_mono (fun x hx => (List.dropWhile_sublist isWordChar).subset hx) hr
        have htw : (c :: r).takeWhile isWordChar = c :: r.takeWhile isWordChar := by
          rw [List.takeWhile_cons, if_pos hc]
        constructor
        · intro hor
          rw [Bool.or_eq_true] at hor
          rcases hor with h1 | h2
          · left
            have := (rereadCond_false_iff hnl).mp h1
            rw [htw] at this
            exact this.symm
          · right
            exact (ih _ hlen hnl2).mp h2
        · intro hor
          rw [Bool.or_eq_true]
          rcases hor with h1 | h2
          · left
            rw [rereadCond_false_iff hnl, htw]
            exact h1.symm
          · right
            exact (ih _ hlen hnl2).mpr h2

/-- With a word character just before, the cut preserves the leading word
run. -/
theorem takeWhile_rereadCut (r : List Char) :
    (rereadCutAux true r).takeWhile isWordChar = r.takeWhile isWordChar := by
  induction r with
  | nil => rfl
  | cons d r' ih =>
    rw [show rereadCutAux true (d :: r') = d :: rereadCutAux (isWordChar d) r' from by
      simp [rereadCutAux, rereadCond_true]]
    rw [List.takeWhile_cons, List.takeWhile_cons]
    cases hw : isWordChar d
    · rw [if_neg (by simp), if_neg (by simp)]
    · rw [if_pos rfl, if_pos rfl, ih]

/-- The cut output contains no further match. -/
theorem hasMatch_rereadCutAux : ∀ {l : List Char} (w : Bool), noNl l = true →
    hasMatch w (rereadCutAux w l) = false := by
  intro l
  induction l with
  | nil => intro w _; rfl
  | cons c r ih =>
    intro w h
    obtain ⟨hc0, hr⟩ := noNl_cons h
    by_cases hcond : rereadCond w (c :: r) = true
    · rw [show rereadCutAux w (c :: r) = tailKeep ((c :: r).drop 6) from by
        simp [rereadCutAux, hcond]]
      rw [show tailKeep ((c :: r).drop 6) = [] from by
        rw [tailKeep, if_pos (noNl_mono (fun x hx => List.drop_subset _ _ hx) h)]]
      rfl
    · rw [show rereadCutAux w (c :: r) = c :: rereadCutAux (isWordChar c) r from by
        simp [rereadCutAux, hcond]]
      show (rereadCond w (c :: rereadCutAux (isWordChar c) r) ||
        hasMatch (isWordChar c) (rereadCutAux (isWordChar c) r)) = false
      rw [ih (isWordChar c) hr, Bool.or_false]
      cases w with
      | true => exact rereadCond_true _
      | false =>
        rw [Bool.eq_false_iff]
        intro h2
        have hnl2 : noNl (c :: rereadCutAux (isWordChar c) r) = true := by
          rw [noNl_iff]
          intro hm
          rcases List.mem_cons.mp hm with e | hm2
          · exact hc0 e.symm
          · exact ((noNl_iff _).mp (noNl_rereadCutAux hr)) hm2
        have h3 := (rereadCond_false_iff hnl2).mp h2
        apply hcond
        rw [rereadCond_false_iff h]
        rw [List.takeWhile_cons] at h3 ⊢
        cases hwc : isWordChar c
        · rw [if_neg (by simp [hwc])] at h3
          exact absurd h3 (by decide)
        · rw [if_pos hwc, hwc, takeWhile_rereadCut r] at h3
          rw [if_pos rfl]
          exact h3

/-- After a space was just emitted, the collapsed output cannot start with a
space character. -/
theorem collapse_head : ∀ {l : List Char} {z : Char},
    (collapseWsAux true l).head? = some z → isSpaceChar z = false := by
  intro l
  induction l with
  | nil => intro z h; exact absurd h (by simp [collapseWsAux])
  | cons c r ih =>
    intro z h
    by_cases hsp : isSpaceChar c = true
    · rw [show collapseWsAux true (c :: r) = collapseWsAux true r from by
        simp [collapseWsAux, hsp]] at h
      exact ih h
    · rw [show collapseWsAux true (c :: r) = c :: collapseWsAux false r from by
        simp [collapseWsAux, hsp]] at h
      injection h with e
      subst e
      exact Bool.not_eq_true _ ▸ eq_false_of_ne_true hsp

/-- Whitespace collapsing never emits two adjacent spaces. -/
theorem collapse_noDbl : ∀ {l : List Char} {p : Bool},
    noDbl (collapseWsAux p l) = true := by
  intro l
  induction l with
  | nil => intro p; rfl
  | cons c r ih =>
    intro p
    by_cases hsp : isSpaceChar c = true
    · cases p with
      | true =>
        rw [show collapseWsAux true (c :: r) = collapseWsAux true r from by
          simp [collapseWsAux, hsp]]
        exact ih
      | false =>
        rw [show collapseWsAux false (c :: r) = ' ' :: collapseWsAux true r from by
          simp [collapseWsAux, hsp]]
        cases hX : collapseWsAux true r with
        | nil => rfl
        | cons x t =>
          show (!(' ' == ' ' && x == ' ') && noDbl (x :: t)) = true
          rw [Bool.and_eq_true]
          constructor
          · have hx : isSpaceChar x = false := collapse_head (by rw [hX]; rfl)
            have hxe : ¬(x = ' ') := fun e => by
              subst e
              exact absurd hx (by decide)
            simp [hxe]
          · rw [← hX]
            exact ih
    · rw [show collapseWsAux p (c :: r) = c :: collapseWsAux false r from by
        simp [collapseWsAux, hsp]]
      have hcne : ¬(c = ' ') := fun e => by
        subst e
        exact hsp (by decide)
      cases hX : collapseWsAux false r with
      | nil => rfl
      | cons x t =>
        show (!(c == ' ' && x == ' ') && noDbl (x :: t)) = true
        rw [Bool.and_eq_true]
        constructor
        · simp [hcne]
        · rw [← hX]
          exact ih

theorem noDbl_dropWhile : ∀ {l : List Char}, noDbl l = true →
    noDbl (l.dropWhile isSpaceChar) = true := by
  intro l
  induction l with
  | nil => intro _; rfl
  | cons c r ih =>
    intro h
    by_cases hsp : isSpaceChar c = true
    · rw [List.dropWhile_cons, if_pos hsp]
      exact ih (noDbl_tail h)
    · rw [List.dropWhile_cons, if_neg hsp]
      exact h

/-- Trailing-whitespace removal yields a prefix: a nonempty result starts
with the original head. -/
theorem dropTrailingWs_head : ∀ {l : List Char} {d : Char} {t : List Char},
    dropTrailingWs l = d :: t → ∃ t2, l = d :: t2 := by
  intro l d t h
  cases l with
  | nil => exact absurd h (by simp [dropTrailingWs])
  | cons c r =>
    unfold dropTrailingWs at h
    split at h
    · split at h
      · exact absurd h (by simp)
      · rw [List.cons.injEq] at h
        exact ⟨r, by rw [h.1.symm]⟩
    · rw [List.cons.injEq] at h
      exact ⟨r, by rw [h.1.symm]⟩

theorem noDbl_dropTrailing : ∀ {l : List Char}, noDbl l = true →
    noDbl (dropTrailingWs l) = true := by
  intro l
  induction l with
  | nil => intro _; rfl
  | cons c r ih =>
    intro h
    cases hdr : dropTrailingWs r with
    | nil =>
      have he : dropTrailingWs (c :: r) = if isSpaceChar c then [] else [c] := by
        show (match dropTrailingWs r with
          | [] => if isSpaceChar c then [] else [c]
          | r2 => c :: r2) = _
        rw [hdr]
      rw [he]
      by_cases hsp : isSpaceChar c = true
      · rw [if_pos hsp]; rfl
      · rw [if_neg hsp]; rfl
    | cons d r2 =>
      have he : dropTrailingWs (c :: r) = c :: d :: r2 := by
        show (match dropTrailingWs r with
          | [] => if isSpaceChar c then [] else [c]
          | r2 => c :: r2) = _
        rw [hdr]
      rw [he]
      obtain ⟨t2, ht2⟩ := dropTrailingWs_head hdr
      show (!(c == ' ' && d == ' ') && noDbl (d :: r2)) = true
      rw [Bool.and_eq_true]
      constructor
      · subst ht2
        have h1 : (!(c == ' ' && d == ' ') && noDbl (d :: t2)) = true := h
        rw [Bool.and_eq_true] at h1
        exact h1.1
      · rw [← hdr]
        exact ih (by subst ht2; exact noDbl_tail h)

theorem head?_dropTrailingWs {l : List Char} {z : Char}
    (h : (dropTrailingWs l).head? = some z) : l.head? = some z := by
  cases hd : dropTrailingWs l with
  | nil =>
    rw [hd] at h
    exact absurd h (by simp)
  | cons a b =>
    rw [hd] at h
    obtain ⟨t2, ht2⟩ := dropTrailingWs_head hd
    rw [ht2]
    exact h

theorem getLast?_dropTrailingWs : ∀ {l : List Char} {z : Char},
    (dropTrailingWs l).getLast? = some z → isSpaceChar z = false := by
  intro l
  induction l with
  | nil => intro z h; exact absurd h (by simp [dropTrailingWs])
  | cons c r ih =>
    intro z h
    cases hdr : dropTrailingWs r with
    | nil =>
      have he : dropTrailingWs (c :: r) = if isSpaceChar c then [] else [c] := by
        show (match dropTrailingWs r with
          | [] => if isSpaceChar c then [] else [c]
          | r2 => c :: r2) = _
        rw [hdr]
      rw [he] at h
      by_cases hsp : isSpaceChar c = true
      · rw [if_pos hsp] at h
        exact absurd h (by simp)
      · rw [if_neg hsp] at h
        injection h with e
        subst e
        exact Bool.not_eq_true _ ▸ eq_false_of_ne_true hsp
    | cons d r2 =>
      have he : dropTrailingWs (c :: r) = c :: d :: r2 := by
        show (match dropTrailingWs r with
          | [] => if isSpaceChar c then [] else [c]
          | r2 => c :: r2) = _
        rw [hdr]
      rw [he, List.getLast?_cons_cons] at h
      rw [← hdr] at h
      exact ih h

/-- A `Good` list is a fixed point of the whole canon pipeline. -/
theorem canonList_fix {l : List Char} (h : Good l = true) : canonList l = l := by
  unfold Good at h
  simp only [Bool.and_eq_true] at h
  obtain ⟨⟨⟨⟨hA, hB⟩, hC⟩, hD⟩, hE⟩ := h
  have hall : ∀ c ∈ l, goodChar c = true := by
    rw [List.all_eq_true] at hA
    exact hA
  have hC' : l.head? ≠ some ' ' := by simpa using hC
  have hD' : l.getLast? ≠ some ' ' := by simpa using hD
  have hE' : hasMatch false l = false := by
    revert hE
    cases hasMatch false l <;> simp
  have hlow : ∀ c ∈ l, lowerChar c = c := by
    intro c hc
    rcases goodChar_cases (hall c hc) with ⟨_, hl⟩ | he
    · exact hl
    · subst he; decide
  have hnotmem : ∀ z : Char, goodChar z = false → z ∉ l := by
    intro z hz hmem
    rw [hall z hmem] at hz
    exact absurd hz (by simp)
  have e1 : l.map lowerChar = l := map_fix hlow
  have e2 : pyStrip l = l := pyStrip_fix hall hC' hD'
  have e3 : stripBrackets l = l :=
    stripBracketsAux_fix l.length (hnotmem '[' (by decide)) (hnotmem '(' (by decide))
  have e4 : normDashes l = l := map_fix (fun c hc => by
    have hnd : ¬(c = '—' ∨ c = '–') := by
      rintro (rfl | rfl)
      · exact hnotmem '—' (by decide) hc
      · exact hnotmem '–' (by decide) hc
    exact if_neg hnd)
  have e5 : rereadCutAux false l = l := rereadCutAux_fix hE'
  have e6 : punctSub l = l := map_fix (fun c hc => by
    rcases goodChar_cases (hall c hc) with ⟨hw, _⟩ | he
    · exact if_pos (by rw [hw]; rfl)
    · subst he
      exact if_pos (by decide))
  have e7 : collapseWs l = l :=
    collapseWsAux_fix hall hB (fun hf => absurd hf (by simp))
  unfold canonList
  rw [e1, e2, e3, e4, e5, e6, e7, e2]

/-- On newline-free input the canon pipeline produces a `Good` list. -/
theorem canonList_good {l : List Char} (hn : noNl l = true) :
    Good (canonList l) = true := by
  have h4 : noNl (l.map lowerChar) = true := by
    rw [noNl_iff]
    intro hmem
    obtain ⟨a, ha, he⟩ := List.mem_map.mp hmem
    exact absurd (lowerChar_eq_nl he ▸ ha) ((noNl_iff l).mp hn)
  have h3 : noNl (pyStrip (l.map lowerChar)) = true :=
    noNl_mono (fun c hc => mem_pyStrip hc) h4
  have h2 : noNl (stripBrackets (pyStrip (l.map lowerChar))) = true :=
    noNl_mono (fun c hc => mem_stripBracketsAux _ hc) h3
  have h1 : noNl (normDashes (stripBrackets (pyStrip (l.map lowerChar)))) = true := by
    rw [noNl_iff]
    intro hmem
    rcases mem_normDashes hmem with hm | he
    · exact ((noNl_iff _).mp h2) hm
    · exact absurd he (by decide)
  have h0 : noNl (rereadCutAux false
      (normDashes (stripBrackets (pyStrip (l.map lowerChar))))) = true :=
    noNl_rereadCutAux h1
  have hP : noNl (punctSub (rereadCutAux false
      (normDashes (stripBrackets (pyStrip (l.map lowerChar)))))) = true := by
    rw [noNl_iff]
    intro hmem
    rcases mem_punctSub hmem with hm | he
    · exact ((noNl_iff _).mp h0) hm
    · exact absurd he (by decide)
  have hW : noNl (collapseWs (punctSub (rereadCutAux false
      (normDashes (stripBrackets (pyStrip (l.map lowerChar))))))) = true := by
    rw [noNl_iff]
    intro hmem
    rcases mem_collapseWsAux hmem with ⟨hm, _⟩ | he
    · exact ((noNl_iff _).mp hP) hm
    · exact absurd he (by decide)
  have hout : noNl (canonList l) = true :=
    noNl_mono (fun c hc => mem_pyStrip hc) hW
  have hfix : ∀ c ∈ canonList l, lowerChar c = c := by
    intro c hc
    have hc1 := mem_pyStrip hc
    rcases mem_collapseWsAux hc1 with ⟨hc2, _⟩ | he
    · rcases mem_punctSub hc2 with hc3 | he
      · rcases mem_rereadCutAux hc3 with hc4 | he
        · rcases mem_normDashes hc4 with hc5 | he
          · have hc6 := mem_stripBracketsAux _ hc5
            have hc7 := mem_pyStrip hc6
            obtain ⟨a, _, he2⟩ := List.mem_map.mp hc7
            rw [← he2]
            exact lowerChar_idem a
          · subst he; decide
        · subst he; decide
      · subst he; decide
    · subst he; decide
  have hclass : ∀ c ∈ canonList l, goodChar c = true := by
    intro c hc
    have hc1 := mem_pyStrip hc
    rcases mem_collapseWsAux hc1 with ⟨hc2, hns⟩ | he
    · rcases mem_punctSub' hc2 with ⟨_, hk⟩ | he
      · rw [Bool.or_eq_true] at hk
        rcases hk with hw | hs
        · unfold goodChar
          rw [hw, beq_iff_eq.mpr (hfix c hc)]
          rfl
        · rw [hs] at hns
          exact absurd hns (by simp)
      · subst he
        decide
    · subst he
      decide
  have hA : (canonList l).all goodChar = true := List.all_eq_true.mpr hclass
  have hB : noDbl (canonList l) = true := by
    show noDbl (pyStrip (collapseWs _)) = true
    unfold pyStrip
    exact noDbl_dropTrailing (noDbl_dropWhile collapse_noDbl)
  have hC : ((canonList l).head? != some ' ') = true := by
    cases hh : (canonList l).head? with
    | none => rfl
    | some z =>
      have hz : isSpaceChar z = false := by
        unfold canonList pyStrip at hh
        exact head?_dropWhile_not (head?_dropTrailingWs hh)
      rw [bne_iff_ne]
      intro he
      injection he with e
      subst e
      exact absurd hz (by decide)
  have hD : ((canonList l).getLast? != some ' ') = true := by
    cases hh : (canonList l).getLast? with
    | none => rfl
    | some z =>
      have hz : isSpaceChar z = false := by
        unfold canonList pyStrip at hh
        exact getLast?_dropTrailingWs hh
      rw [bne_iff_ne]
      intro he
      injection he with e
      subst e
      exact absurd hz (by decide)
  have hE : hasMatch false (canonList l) = false := by
    have hg1 : ∀ c, isWordChar c = true →
        (fun c => if isWordChar c || isSpaceChar c then c else ' ') c = c := by
      intro c hc
      show (if (isWordChar c || isSpaceChar c) = true then c else ' ') = c
      exact if_pos (by rw [hc]; rfl)
    have hg2 : ∀ c, isWordChar
        ((fun c => if isWordChar c || isSpaceChar c then c else ' ') c) = isWordChar c := by
      intro c
      show isWordChar (if (isWordChar c || isSpaceChar c) = true then c else ' ') =
        isWordChar c
      by_cases hk : (isWordChar c || isSpaceChar c) = true
      · rw [if_pos hk]
      · rw [if_neg hk]
        rw [Bool.or_eq_true] at hk
        have hw : isWordChar c = false :=
          Bool.not_eq_true _ ▸ eq_false_of_ne_true (fun e => hk (Or.inl e))
        rw [hw]
        decide
    have htok : tokens (canonList l) = tokens (rereadCutAux false
        (normDashes (stripBrackets (pyStrip (l.map lowerChar))))) := by
      have t1 : tokensAux [] (canonList l) = tokensAux []
          (collapseWs (punctSub (rereadCutAux false
            (normDashes (stripBrackets (pyStrip (l.map lowerChar))))))) := by
        show tokensAux [] (dropTrailingWs ((collapseWs (punctSub (rereadCutAux false
          (normDashes (stripBrackets (pyStrip (l.map lowerChar))))))).dropWhile
            isSpaceChar)) = _
        rw [tokensAux_dropTrailing, tokensAux_dropLeading]
      have t2 : tokensAux [] (collapseWs (punctSub (rereadCutAux false
          (normDashes (stripBrackets (pyStrip (l.map lowerChar))))))) = tokensAux []
          (punctSub (rereadCutAux false
            (normDashes (stripBrackets (pyStrip (l.map lowerChar)))))) :=
        tokensAux_collapse _ false [] (fun hf => absurd hf (by simp))
      have t3 : tokensAux [] (punctSub (rereadCutAux false
          (normDashes (stripBrackets (pyStrip (l.map lowerChar)))))) = tokensAux []
          (rereadCutAux false (normDashes (stripBrackets (pyStrip (l.map lowerChar))))) :=
        tokensAux_map _ hg1 hg2 _ []
      exact t1.trans (t2.trans t3)
    have hcut : hasMatch false (rereadCutAux false
        (normDashes (stripBrackets (pyStrip (l.map lowerChar))))) = false :=
      hasMatch_rereadCutAux false h1
    rw [Bool.eq_false_iff]
    intro hmm
    have ht := (hasMatch_iff_token (canonList l).length (canonList l) le_rfl hout).mp hmm
    rw [htok] at ht
    have hm0 := (hasMatch_iff_token (rereadCutAux false
      (normDashes (stripBrackets (pyStrip (l.map lowerChar))))).length _ le_rfl h0).mpr ht
    rw [hcut] at hm0
    exact absurd hm0 (by simp)
  show ((((canonList l).all goodChar && noDbl (canonList l)) &&
    ((canonList l).head? != some ' ')) && ((canonList l).getLast? != some ' ') &&
    !hasMatch false (canonList l)) = true
  rw [hA, hB, hC, hD, hE]
  rfl

/-- Counterexample for C7 as stated: canonicalization is not idempotent on
every string.  On "reread\nx" the regex `\breread\b.*$` cannot match (`.`
does not cross the newline and `$` only matches at the end or before a final
newline), so the first pass yields "reread x"; the second pass then finds a
match and erases everything. -/
theorem C7_canon_not_idempotent :
    canonTitle (canonTitle "reread\nx") ≠ canonTitle "reread\nx" ∧
    canonTitle "reread\nx" = "reread x" ∧ canonTitle (canonTitle "reread\nx") = "" := by
  refine ⟨?_, by decide, by decide⟩
  decide

/-- Claim C7 (amended): canonicalization is idempotent on every
newline-free string, is invariant to case, and identifies "Mate (#2)" with
"mate". -/
theorem C7_canon_amended (s : String) (h : noNl s.data = true) :
    canonTitle (canonTitle s) = canonTitle s ∧
    canonTitle (String.mk (s.data.map upperChar)) = canonTitle s ∧
    canonTitle "Mate (#2)" = canonTitle "mate" := by
  refine ⟨?_, ?_, by decide⟩
  · show String.mk (canonList (canonList s.data)) = String.mk (canonList s.data)
    exact congrArg String.mk (canonList_fix (canonList_good h))
  · show String.mk (canonList (s.data.map upperChar)) = String.mk (canonList s.data)
    apply congrArg String.mk
    unfold canonList
    rw [List.map_map, show s.data.map (lowerChar ∘ upperChar) = s.data.map lowerChar from
      List.map_congr_left (fun c _ => lowerChar_upperChar c)]

/-- Witness for the amended C7 at "Mate (#2)". -/
theorem C7_canon_amended_witness :
    noNl ("Mate (#2)" : String).data = true ∧
    (canonTitle (canonTitle "Mate (#2)") = canonTitle "Mate (#2)" ∧
     canonTitle (String.mk (("Mate (#2)" : String).data.map upperChar)) =
       canonTitle "Mate (#2)" ∧
     canonTitle "Mate (#2)" = canonTitle "mate") := by
  have h : noNl ("Mate (#2)" : String).data = true := by decide
  exact ⟨h, C7_canon_amended "Mate (#2)" h⟩

end LibbyWrapped
